import Mathlib

/-!
Formal model of the HDFC credit-card statement parser (main.rs and
pdf_tools.rs).  Text fragments are modelled as `List Char` (the `.data`
of a Lean `String`), raw PDF bytes as `List Nat`, and `f32` amounts as
rationals (`ℚ`): the only float operations the source performs on
amounts are negation and absolute value, which are exact, so the
rational model is sign- and value-faithful for finite decimal literals
(infinite/NaN float literals such as "inf" contain no digits or dot and
are modelled as unparseable).
-/

namespace HdfcCc

/-- Text fragments are lists of characters. -/
abbrev Str := List Char

/-- Boolean test that `p` is a prefix of `s` (Rust `str::starts_with`). -/
def startsWithL : Str → Str → Bool
  | [], _ => true
  | _ :: _, [] => false
  | a :: p, b :: s => a == b && startsWithL p s

/-- Boolean substring test (Rust `str::contains` for a pattern string). -/
def containsSub (pat : Str) : Str → Bool
  | [] => startsWithL pat []
  | c :: r => startsWithL pat (c :: r) || containsSub pat r

/-- Drop leading whitespace (the left half of Rust `str::trim`). -/
def trimStart (s : Str) : Str := s.dropWhile Char.isWhitespace

/-- Drop trailing whitespace (the right half of Rust `str::trim`). -/
def trimEnd (s : Str) : Str := (s.reverse.dropWhile Char.isWhitespace).reverse

/-- Rust `str::trim` (both ends). -/
def trimL (s : Str) : Str := trimEnd (trimStart s)

/-- Boolean test that the first character of `s` is `c`. -/
def headIs (c : Char) (s : Str) : Bool :=
  match s with
  | a :: _ => a == c
  | [] => false

/-- Numeric value of a digit character. -/
def digitVal (c : Char) : Nat := c.toNat - 48

/-- Value of a digit string, most significant first. -/
def natOfDigits (ds : List Char) : Nat := ds.foldl (fun a c => a * 10 + digitVal c) 0

/-- Join description parts with single spaces (Rust `Vec::join(" ")`). -/
def joinSpace : List Str → Str
  | [] => []
  | [x] => x
  | x :: xs => x ++ ' ' :: joinSpace xs

/-! ## Date parsing (model of chrono `parse_from_str` on the fixed formats)

The source (main.rs lines 56-79) tries, in order, the formats
`"%d/%m/%Y| %H:%M"`, `"%d/%m/%Y | %H:%M"`, `"%d/%m/%Y %H:%M:%S"`, and then
the date-only `"%d/%m/%Y"`.  The chrono numeric items scan greedily up to
the item width after skipping leading whitespace, a literal must match
exactly, a whitespace item in the format skips any run of whitespace in
the input, and the whole input must be consumed. -/

/-- Parsed calendar date-time (model of `NaiveDateTime`). -/
structure DateTime where
  year : Nat
  month : Nat
  day : Nat
  hour : Nat
  minute : Nat
  second : Nat
deriving DecidableEq, Repr

/-- Scan a chrono numeric item: skip whitespace, then greedily take at most
`k` digits (at least one). -/
def scanNum (k : Nat) (cs : Str) : Option (Nat × Str) :=
  let cs' := cs.dropWhile Char.isWhitespace
  let ds := (cs'.takeWhile Char.isDigit).take k
  if ds = [] then none else some (natOfDigits ds, cs'.drop ds.length)

/-- Scan a literal character of a chrono format. -/
def scanLit (c : Char) : Str → Option Str
  | d :: r => if d = c then some r else none
  | [] => none

/-- Gregorian leap year. -/
def isLeap (y : Nat) : Bool := y % 4 = 0 && (y % 100 ≠ 0 || y % 400 = 0)

/-- Days in a month, as validated by `NaiveDate::from_ymd`. -/
def daysInMonth (y m : Nat) : Nat :=
  if m = 2 then (if isLeap y then 29 else 28)
  else if m = 4 ∨ m = 6 ∨ m = 9 ∨ m = 11 then 30
  else 31

/-- Validity of a parsed calendar date. -/
def validDate (y m d : Nat) : Bool :=
  1 ≤ m && m ≤ 12 && 1 ≤ d && d ≤ daysInMonth y m

/-- Validity of a parsed time of day (`%S` additionally admits the leap
second 60, as chrono does). -/
def validTime (h mi s : Nat) : Bool := h ≤ 23 && mi ≤ 59 && s ≤ 60

/-- Scan the common `%d/%m/%Y` prefix of all four formats. -/
def scanDMY (cs : Str) : Option (Nat × Nat × Nat × Str) :=
  match scanNum 2 cs with
  | Option.none => Option.none
  | some (d, r1) =>
    match scanLit '/' r1 with
    | Option.none => Option.none
    | some r2 =>
      match scanNum 2 r2 with
      | Option.none => Option.none
      | some (m, r3) =>
        match scanLit '/' r3 with
        | Option.none => Option.none
        | some r4 =>
          match scanNum 6 r4 with
          | Option.none => Option.none
          | some (y, r5) => some (d, m, y, r5)

/-- Scan `%H:%M`. -/
def scanHM (cs : Str) : Option (Nat × Nat × Str) :=
  match scanNum 2 cs with
  | Option.none => Option.none
  | some (h, r1) =>
    match scanLit ':' r1 with
    | Option.none => Option.none
    | some r2 =>
      match scanNum 2 r2 with
      | Option.none => Option.none
      | some (mi, r3) => some (h, mi, r3)

/-- Format `"%d/%m/%Y| %H:%M"` (domestic sections). -/
def fmtPipeA (cs : Str) : Option DateTime :=
  match scanDMY cs with
  | Option.none => Option.none
  | some (d, m, y, r) =>
    match scanLit '|' r with
    | Option.none => Option.none
    | some r1 =>
      match scanHM r1 with
      | Option.none => Option.none
      | some (h, mi, r2) =>
        if r2 = [] ∧ validDate y m d = true ∧ validTime h mi 0 = true then
          some ⟨y, m, d, h, mi, 0⟩
        else Option.none

/-- Format `"%d/%m/%Y | %H:%M"` (international sections). -/
def fmtPipeB (cs : Str) : Option DateTime :=
  match scanDMY cs with
  | Option.none => Option.none
  | some (d, m, y, r) =>
    match scanLit '|' (r.dropWhile Char.isWhitespace) with
    | Option.none => Option.none
    | some r1 =>
      match scanHM r1 with
      | Option.none => Option.none
      | some (h, mi, r2) =>
        if r2 = [] ∧ validDate y m d = true ∧ validTime h mi 0 = true then
          some ⟨y, m, d, h, mi, 0⟩
        else Option.none

/-- Format `"%d/%m/%Y %H:%M:%S"` (old format with seconds). -/
def fmtSeconds (cs : Str) : Option DateTime :=
  match scanDMY cs with
  | Option.none => Option.none
  | some (d, m, y, r) =>
    match scanHM r with
    | Option.none => Option.none
    | some (h, mi, r2) =>
      match scanLit ':' r2 with
      | Option.none => Option.none
      | some r3 =>
        match scanNum 2 r3 with
        | Option.none => Option.none
        | some (s, r4) =>
          if r4 = [] ∧ validDate y m d = true ∧ validTime h mi s = true then
            some ⟨y, m, d, h, mi, s⟩
          else Option.none

/-- Date-only format `"%d/%m/%Y"`; the source then attaches time 00:00:00. -/
def fmtDateOnly (cs : Str) : Option DateTime :=
  match scanDMY cs with
  | Option.none => Option.none
  | some (d, m, y, r) =>
    if r = [] ∧ validDate y m d = true then some ⟨y, m, d, 0, 0, 0⟩ else Option.none

/-- Model of `parse_transaction_date` (main.rs lines 64-79): the three
datetime formats in the order of `DATE_FORMATS`, then the date-only
fallback with time 00:00:00. -/
def parse_transaction_date (cs : Str) : Option DateTime :=
  match fmtPipeA cs with
  | some v => some v
  | none =>
    match fmtPipeB cs with
    | some v => some v
    | none =>
      match fmtSeconds cs with
      | some v => some v
      | none => fmtDateOnly cs

/-- Date parsing in the order stated by the specification: the
datetime-with-seconds format first, then the pipe-delimited
datetime-with-minutes formats, then date-only. -/
def parse_transaction_date_specOrder (cs : Str) : Option DateTime :=
  match fmtSeconds cs with
  | some v => some v
  | none =>
    match fmtPipeA cs with
    | some v => some v
    | none =>
      match fmtPipeB cs with
      | some v => some v
      | none => fmtDateOnly cs

/-! ## Numeric parsing (model of Rust `f32::from_str` and `i32::from_str`) -/

/-- Value of a decimal literal with integer digits `intD`, fractional
digits `fracD` and decimal exponent `e`, i.e. the rational
`digits * 10 ^ (e - |fracD|)`.  Built with `mkRat` (rather than `ℚ`
division, an irreducible operation) so that concrete runs evaluate. -/
def decimalVal (intD fracD : List Char) (e : Int) : ℚ :=
  if 0 ≤ e - (fracD.length : Int) then
    mkRat ((natOfDigits (intD ++ fracD) : Int) * (10 : Int) ^ (e - (fracD.length : Int)).toNat) 1
  else
    mkRat (natOfDigits (intD ++ fracD) : Int) ((10 : Nat) ^ (-(e - (fracD.length : Int))).toNat)

/-- Absolute value as computed by `f32::abs`, written through the sign
of the numerator so that it evaluates on concrete rationals. -/
def f32Abs (q : ℚ) : ℚ := if q.num < 0 then -q else q

/-- Scan the optional exponent part `('e'|'E') sign? digits` which must
consume the whole rest of the string. -/
def scanExp (cs : Str) : Option Int :=
  match cs with
  | [] => some 0
  | e :: r =>
    if e = 'e' ∨ e = 'E' then
      match r with
      | s :: r2 =>
        if s = '+' then
          (if r2 ≠ [] ∧ r2.all Char.isDigit then some (natOfDigits r2 : Int) else none)
        else if s = '-' then
          (if r2 ≠ [] ∧ r2.all Char.isDigit then some (-(natOfDigits r2 : Int)) else none)
        else
          (if (s :: r2).all Char.isDigit then some (natOfDigits (s :: r2) : Int) else none)
      | [] => none
    else none

/-- Unsigned part of the `f32` grammar:
`Digits '.'? Digits? Exp? | '.' Digits Exp?`.  Yields a non-negative
rational.  (The special literals inf/infinity/NaN are treated as
unparseable; they cannot occur on the amount path, which requires a
decimal point in the raw fragment.) -/
def parseF32Unsigned (cs : Str) : Option ℚ :=
  match cs.dropWhile Char.isDigit with
  | c :: r =>
    if c = '.' then
      (if cs.takeWhile Char.isDigit = [] ∧ r.takeWhile Char.isDigit = [] then Option.none
       else
        match scanExp (r.dropWhile Char.isDigit) with
        | some e => some (decimalVal (cs.takeWhile Char.isDigit) (r.takeWhile Char.isDigit) e)
        | Option.none => Option.none)
    else
      (if cs.takeWhile Char.isDigit = [] then Option.none
       else
        match scanExp (c :: r) with
        | some e => some (decimalVal (cs.takeWhile Char.isDigit) [] e)
        | Option.none => Option.none)
  | [] =>
    if cs.takeWhile Char.isDigit = [] then Option.none
    else
      match scanExp [] with
      | some e => some (decimalVal (cs.takeWhile Char.isDigit) [] e)
      | Option.none => Option.none

/-- Model of `str::parse::<f32>` on finite decimal literals: an optional
sign followed by the unsigned grammar. -/
def parseF32 (cs : Str) : Option ℚ :=
  match cs with
  | c :: r =>
    if c = '+' then parseF32Unsigned r
    else if c = '-' then (parseF32Unsigned r).map Neg.neg
    else parseF32Unsigned (c :: r)
  | [] => parseF32Unsigned []

/-- Model of `str::parse::<i32>`: optional sign, then only digits, with
the i32 range check (overflow is an error in Rust). -/
def parseI32 (cs : Str) : Option Int :=
  match cs with
  | c :: r =>
    if c = '+' then
      (if r ≠ [] ∧ r.all Char.isDigit ∧ natOfDigits r ≤ 2147483647 then
        some (natOfDigits r : Int)
      else none)
    else if c = '-' then
      (if r ≠ [] ∧ r.all Char.isDigit ∧ natOfDigits r ≤ 2147483648 then
        some (-(natOfDigits r : Int))
      else none)
    else
      (if (c :: r).all Char.isDigit ∧ natOfDigits (c :: r) ≤ 2147483647 then
        some (natOfDigits (c :: r) : Int)
      else none)
  | [] => none

/-! ## Amount and points parsing (main.rs lines 82-109) -/

/-- The cleaned amount string: currency symbols (U+20B9, removed twice in
the source, which is idempotent) and thousands separators removed, then
trimmed. -/
def cleanAmount (s : Str) : Str :=
  trimL ((s.filter (fun c => c ≠ '₹')).filter (fun c => c ≠ ','))

/-- Model of `parse_amount` (main.rs lines 82-100): a leading `'+'` in the
cleaned string forces the credit branch (all leading '+' characters are
stripped and the rest re-trimmed); the value is negated unless the
credit flag (either passed in or forced) is set.  The source's
`(is_credit, num_str)` pair followed by a single conditional negation is
written as the three resulting cases. -/
def parse_amount (s : Str) (is_credit : Bool) : Option ℚ :=
  if headIs '+' (cleanAmount s) = true then
    parseF32 (trimL ((cleanAmount s).dropWhile (fun c => c = '+')))
  else if is_credit = true then
    parseF32 (cleanAmount s)
  else
    (parseF32 (cleanAmount s)).map (fun amt => -amt)

/-- Replace every (leftmost, non-overlapping) occurrence of the two-char
pattern `a b` by the single char `c` (Rust `str::replace` for the
patterns `"+ "` and `"- "`). -/
def replacePair (a b c : Char) : Str → Str
  | [] => []
  | [x] => [x]
  | x :: y :: r =>
    if x = a ∧ y = b then c :: replacePair a b c r
    else x :: replacePair a b c (y :: r)

/-- Model of `parse_points` (main.rs lines 103-109). -/
def parse_points (s : Str) : Option Int :=
  parseI32 (trimL (replacePair '-' ' ' '-' (replacePair '+' ' ' '+' s)))

/-! ## Text classification helpers (main.rs lines 115-160) -/

/-- `SECTION_TERMINATORS` (main.rs lines 116-126). -/
def SECTION_TERMINATORS : List Str :=
  ["Eligible for EMI".data, "Eligible for".data, "TRANSACTIONS".data,
   "Past Dues".data, "GST Summary".data, "Rewards Program Points Summary".data,
   "Offers on your card".data, "TOTAL AMOUNT".data, "CONVERT TO EMI".data]

/-- `FOREIGN_CURRENCY_PREFIXES` (main.rs lines 129-130). -/
def FOREIGN_CURRENCY_LABELS : List Str :=
  ["USD ".data, "JPY ".data, "MYR ".data, "EUR ".data,
   "GBP ".data, "SGD ".data, "AUD ".data, "THB ".data]

/-- Model of `is_section_terminator` (main.rs lines 133-135). -/
def is_section_terminator (t : Str) : Bool :=
  SECTION_TERMINATORS.contains t || startsWithL ("*Transaction time".data) t

/-- Model of `is_page_header` (main.rs lines 138-143). -/
def is_page_header (t : Str) : Bool :=
  t == "Infinia Credit Card Statement".data
  || startsWithL ("HSN Code:".data) t
  || startsWithL ("HDFC Bank Credit Cards GSTIN:".data) t
  || containsSub ("GSTIN: 33AAACH".data) t

/-- Model of `is_page_number` (main.rs lines 146-148). -/
def is_page_number (t : Str) : Bool :=
  startsWithL ("Page ".data) t && containsSub (" of ".data) t

/-- Model of `is_foreign_currency` (main.rs lines 151-155). -/
def is_foreign_currency (t : Str) : Bool :=
  FOREIGN_CURRENCY_LABELS.any (fun p => startsWithL p t)

/-- Model of `is_skippable_symbol` (main.rs lines 158-160). -/
def is_skippable_symbol (t : Str) : Bool :=
  t == "+".data || t == "C".data || t == "₹".data || t == "l".data
  || t == "●".data || t == "•".data || t == "Cr".data

/-! ## Parser state machine (main.rs lines 319-528)

The `debug` field of `ParserState` only gates `eprintln!` tracing and is
omitted; emission over the mpsc channel is modelled by returning the
list of emitted `Transaction`s. -/

/-- Transaction row representation (main.rs lines 17-22). -/
structure Transaction where
  date : DateTime
  description : Str
  points : Int
  amount : ℚ
deriving DecidableEq, Repr

/-- `Transaction::default` (main.rs lines 24-36). -/
def Transaction.default : Transaction := ⟨⟨1970, 1, 1, 0, 0, 0⟩, [], 0, 0⟩

/-- Row-machine state (main.rs lines 319-329). -/
structure ParserState where
  in_transactions : Bool
  past_header : Bool
  skip_next_non_date : Bool
  in_row : Bool
  has_amount : Bool
  is_credit : Bool
  transaction : Transaction
  desc_parts : List Str
deriving DecidableEq, Repr

/-- `ParserState::new` (main.rs lines 332-344). -/
def ParserState.new : ParserState :=
  ⟨false, false, false, false, false, false, Transaction.default, []⟩

/-- Transaction actually emitted by a flush: the accumulated description
parts joined with spaces overwrite the description when non-empty
(main.rs lines 349-351). -/
def flushedTx (s : ParserState) : Transaction :=
  if s.desc_parts ≠ [] then
    { s.transaction with description := joinSpace s.desc_parts }
  else s.transaction

/-- Model of `ParserState::flush_transaction` (main.rs lines 347-358):
emit the current transaction only when in a row with a non-empty
description, joining accumulated description parts first.  The join is
written back into the state, as in the source. -/
def flush_transaction (s : ParserState) : ParserState × List Transaction :=
  if s.in_row = true ∧ s.transaction.description ≠ [] then
    ({ s with transaction := flushedTx s }, [flushedTx s])
  else (s, [])

/-- `ParserState::start_new_transaction` (main.rs lines 361-368). -/
def start_new_transaction (s : ParserState) (dt : DateTime) : ParserState :=
  { s with transaction := { Transaction.default with date := dt },
           in_row := true, has_amount := false, is_credit := false,
           desc_parts := [] }

/-- `ParserState::exit_section` (main.rs lines 371-377). -/
def exit_section (s : ParserState) : ParserState :=
  { s with in_transactions := false, transaction := Transaction.default,
           in_row := false, has_amount := false, desc_parts := [] }

/-- The amount attempt of the loop body (main.rs lines 493-500): only a
fragment containing a decimal point is offered to `parse_amount`. -/
def amountOpt (s : ParserState) (text : Str) : Option ℚ :=
  if text.contains '.' then parse_amount text s.is_credit else none

/-- Rules 8-14 of the loop body (main.rs lines 468-520): the in-row
fragment handling after the section/date checks.  No branch emits. -/
def handleRow (s : ParserState) (text : Str) : ParserState :=
  if s.in_row = false then s
  else if is_skippable_symbol text then
    if text = "+".data then { s with is_credit := true }
    else if text = "Cr".data then
      { s with transaction := { s.transaction with amount := f32Abs s.transaction.amount } }
    else s
  else if is_page_number text || is_page_header text then s
  else if is_foreign_currency text then { s with desc_parts := s.desc_parts ++ [text] }
  else
    match amountOpt s text with
    | some amt =>
      { s with transaction := { s.transaction with amount := amt },
               has_amount := true, is_credit := false }
    | none =>
      match parse_points text with
      | some p => { s with transaction := { s.transaction with points := p } }
      | none =>
        if s.has_amount = true then s
        else
          { s with desc_parts := s.desc_parts ++ [text],
                   transaction :=
                     if s.transaction.description = [] then
                       { s.transaction with description := text }
                     else s.transaction }

/-- Rules 5-14 of the loop body (main.rs lines 454-520): section
terminator, date anchor, then in-row handling. -/
def stepMain (s : ParserState) (text : Str) : ParserState × List Transaction :=
  if is_section_terminator text then
    let p := flush_transaction s
    (exit_section p.1, p.2)
  else
    match parse_transaction_date text with
    | some dt =>
      let p := flush_transaction s
      (start_new_transaction p.1 dt, p.2)
    | none => (handleRow s text, [])

/-- One fragment of the per-page loop (main.rs lines 415-521): section
start, in-section gate, header skip, one-shot cardholder-name skip, then
`stepMain`. -/
def step (name : Str) (s : ParserState) (text : Str) : ParserState × List Transaction :=
  if text = "Domestic Transactions".data ∨ text = "International Transactions".data then
    ({ s with in_transactions := true, past_header := false }, [])
  else if s.in_transactions = false then (s, [])
  else if s.past_header = false then
    (if text = name ∨ text = "PI".data then
      { s with past_header := true, skip_next_non_date := true }
     else s, [])
  else if s.skip_next_non_date = true then
    let s1 := { s with skip_next_non_date := false }
    if parse_transaction_date text = none then (s1, []) else stepMain s1 text
  else stepMain s text

/-- Run the loop over a list of fragments, accumulating emissions. -/
def runSteps (name : Str) (s : ParserState) : List Str → ParserState × List Transaction
  | [] => (s, [])
  | t :: ts =>
    let p := step name s t
    let q := runSteps name p.1 ts
    (q.1, p.2 ++ q.2)

/-- One page of `parse` (main.rs lines 412-524): fresh state, the loop,
then the final page-end flush. -/
def parsePage (name : Str) (texts : List Str) : List Transaction :=
  let p := runSteps name ParserState.new texts
  p.2 ++ (flush_transaction p.1).2

/-- State reached after a date anchor `d` and the row fragments `mid`,
starting from `s` (helper for stating per-row properties). -/
def rowState (name : Str) (s : ParserState) (d : Str) (mid : List Str) : ParserState :=
  (runSteps name (step name s d).1 mid).1

/-- Emissions attributable to the row anchored at `d` with fragments
`mid`: everything emitted after the date anchor's own flush (which
finalizes the previous row), including the page-end flush. -/
def rowEmissions (name : Str) (s : ParserState) (d : Str) (mid : List Str) : List Transaction :=
  (runSteps name (step name s d).1 mid).2 ++ (flush_transaction (rowState name s d mid)).2

/-! ## Font decoding (pdf_tools.rs lines 17-80)

Raw glyph bytes are modelled as `List Nat` (each entry a byte value).
`ToUnicodeMap` and `DifferenceForwardMap` of the external pdf crates are
modelled as association lists from code to replacement text. -/

/-- Error type; the decoder only ever constructs `Utf16Decode`
(`PdfError::Utf16Decode`); the external crate's remaining variants are
collapsed into one placeholder constructor. -/
inductive PdfError
  | Utf16Decode
  | otherVariant
deriving DecidableEq, Repr

/-- Decidable equality of decode results. -/
instance {ε α : Type} [DecidableEq ε] [DecidableEq α] : DecidableEq (Except ε α) := fun a b =>
  match a, b with
  | Except.ok x, Except.ok y =>
    if h : x = y then isTrue (by rw [h]) else isFalse (fun hc => by cases hc; exact h rfl)
  | Except.error x, Except.error y =>
    if h : x = y then isTrue (by rw [h]) else isFalse (fun hc => by cases hc; exact h rfl)
  | Except.ok _, Except.error _ => isFalse (fun hc => by cases hc)
  | Except.error _, Except.ok _ => isFalse (fun hc => by cases hc)

/-- Association-list lookup, modelling `ToUnicodeMap::get` /
`DifferenceForwardMap::get`. -/
def mget (m : List (Nat × Str)) (k : Nat) : Option Str :=
  (m.find? (fun p => p.1 == k)).map (fun p => p.2)

/-- Decoding strategy (pdf_tools.rs lines 17-28). -/
inductive Decoder
  | map (m : List (Nat × Str))
  | cmap (m : List (Nat × Str))
  | none
deriving DecidableEq, Repr

/-- Font wrapper (pdf_tools.rs lines 30-33). -/
structure FontInfo where
  decoder : Decoder
deriving DecidableEq, Repr

/-- `FontInfo::default` (derived `Default`, decoder `None`). -/
def FontInfo.default : FontInfo := ⟨Decoder.none⟩

/-- Test for the UTF-16BE byte-order mark `0xFE 0xFF`. -/
def startsWithBOM : List Nat → Bool
  | a :: b :: _ => a == 254 && b == 255
  | _ => false

/-- Overlapping adjacent byte pairs: Rust `slice::windows(2)` as used in
the cmap branch of `decode`. -/
def windows2 : List Nat → List (Nat × Nat)
  | a :: b :: r => (a, b) :: windows2 (b :: r)
  | _ => []

/-- `u16::from_be_bytes` on a byte pair. -/
def beCode (p : Nat × Nat) : Nat := p.1 * 256 + p.2

/-- Consecutive non-overlapping big-endian 16-bit units, dropping a
trailing odd byte: model of the pdf crate's `utf16be_to_char` input
chunking (`chunks_exact(2)`). -/
def utf16Units : List Nat → List Nat
  | a :: b :: r => (a * 256 + b) :: utf16Units r
  | _ => []

/-- High-surrogate test for a 16-bit unit. -/
def isHighSurr (u : Nat) : Bool := if 55296 ≤ u ∧ u ≤ 56319 then true else false

/-- Low-surrogate test for a 16-bit unit. -/
def isLowSurr (u : Nat) : Bool := if 56320 ≤ u ∧ u ≤ 57343 then true else false

/-- Model of `utf16be_to_char(..).try_for_each(..)` (pdf_tools.rs lines
65-70, with the iterator semantics of `char::decode_utf16`): units are
turned into characters, pairing surrogates; the first unpaired surrogate
aborts with `PdfError::Utf16Decode`. -/
def decodeUtf16BE : List Nat → Except PdfError Str
  | [] => Except.ok []
  | u :: r =>
    if isHighSurr u then
      match r with
      | lo :: r' =>
        if isLowSurr lo then
          match decodeUtf16BE r' with
          | Except.ok cs =>
            Except.ok (Char.ofNat (65536 + (u - 55296) * 1024 + (lo - 56320)) :: cs)
          | Except.error e => Except.error e
        else Except.error PdfError.Utf16Decode
      | [] => Except.error PdfError.Utf16Decode
    else if isLowSurr u then Except.error PdfError.Utf16Decode
    else
      match decodeUtf16BE r with
      | Except.ok cs => Except.ok (Char.ofNat u :: cs)
      | Except.error e => Except.error e

/-- Continuation-byte test for UTF-8. -/
def isCont (b : Nat) : Bool := if 128 ≤ b ∧ b ≤ 191 then true else false

/-- Exact UTF-8 validation and decoding, modelling
`std::str::from_utf8` (rejecting overlong forms, surrogates and code
points above U+10FFFF). -/
def utf8Decode : List Nat → Option Str
  | [] => some []
  | b0 :: r =>
    if b0 ≤ 127 then (utf8Decode r).map (fun cs => Char.ofNat b0 :: cs)
    else if 194 ≤ b0 ∧ b0 ≤ 223 then
      match r with
      | b1 :: r1 =>
        if isCont b1 then
          (utf8Decode r1).map (fun cs => Char.ofNat ((b0 - 192) * 64 + (b1 - 128)) :: cs)
        else none
      | [] => none
    else if b0 = 224 then
      match r with
      | b1 :: b2 :: r2 =>
        if (if 160 ≤ b1 ∧ b1 ≤ 191 then true else false) && isCont b2 then
          (utf8Decode r2).map (fun cs =>
            Char.ofNat ((b0 - 224) * 4096 + (b1 - 128) * 64 + (b2 - 128)) :: cs)
        else none
      | _ => none
    else if 225 ≤ b0 ∧ b0 ≤ 236 then
      match r with
      | b1 :: b2 :: r2 =>
        if isCont b1 && isCont b2 then
          (utf8Decode r2).map (fun cs =>
            Char.ofNat ((b0 - 224) * 4096 + (b1 - 128) * 64 + (b2 - 128)) :: cs)
        else none
      | _ => none
    else if b0 = 237 then
      match r with
      | b1 :: b2 :: r2 =>
        if (if 128 ≤ b1 ∧ b1 ≤ 159 then true else false) && isCont b2 then
          (utf8Decode r2).map (fun cs =>
            Char.ofNat ((b0 - 224) * 4096 + (b1 - 128) * 64 + (b2 - 128)) :: cs)
        else none
      | _ => none
    else if 238 ≤ b0 ∧ b0 ≤ 239 then
      match r with
      | b1 :: b2 :: r2 =>
        if isCont b1 && isCont b2 then
          (utf8Decode r2).map (fun cs =>
            Char.ofNat ((b0 - 224) * 4096 + (b1 - 128) * 64 + (b2 - 128)) :: cs)
        else none
      | _ => none
    else if b0 = 240 then
      match r with
      | b1 :: b2 :: b3 :: r3 =>
        if (if 144 ≤ b1 ∧ b1 ≤ 191 then true else false) && isCont b2 && isCont b3 then
          (utf8Decode r3).map (fun cs =>
            Char.ofNat ((b0 - 240) * 262144 + (b1 - 128) * 4096 + (b2 - 128) * 64 + (b3 - 128)) :: cs)
        else none
      | _ => none
    else if 241 ≤ b0 ∧ b0 ≤ 243 then
      match r with
      | b1 :: b2 :: b3 :: r3 =>
        if isCont b1 && isCont b2 && isCont b3 then
          (utf8Decode r3).map (fun cs =>
            Char.ofNat ((b0 - 240) * 262144 + (b1 - 128) * 4096 + (b2 - 128) * 64 + (b3 - 128)) :: cs)
        else none
      | _ => none
    else if b0 = 244 then
      match r with
      | b1 :: b2 :: b3 :: r3 =>
        if (if 128 ≤ b1 ∧ b1 ≤ 143 then true else false) && isCont b2 && isCont b3 then
          (utf8Decode r3).map (fun cs =>
            Char.ofNat ((b0 - 240) * 262144 + (b1 - 128) * 4096 + (b2 - 128) * 64 + (b3 - 128)) :: cs)
        else none
      | _ => none
    else none

/-- Model of `FontInfo::decode` (pdf_tools.rs lines 36-79).  The `&mut
String` output buffer is modelled by passing `out` and returning the
extended buffer.  The cmap branch really iterates over *overlapping*
`windows(2)` (including the byte-order mark pair) exactly as the source
does. -/
def FontInfo.decode (f : FontInfo) (data : List Nat) (out : Str) : Except PdfError Str :=
  match f.decoder with
  | Decoder.cmap cmap =>
    if startsWithBOM data then
      Except.ok (out ++ ((windows2 data).filterMap (fun w => mget cmap (beCode w))).flatten)
    else
      Except.ok (out ++ (data.filterMap (fun b => mget cmap b)).flatten)
  | Decoder.map m =>
    Except.ok (out ++ (data.filterMap (fun b => mget m b)).flatten)
  | Decoder.none =>
    if startsWithBOM data then
      match decodeUtf16BE (utf16Units (data.drop 2)) with
      | Except.ok cs => Except.ok (out ++ cs)
      | Except.error e => Except.error e
    else
      match utf8Decode data with
      | some cs => Except.ok (out ++ cs)
      | none => Except.error PdfError.Utf16Decode

/-- Decoding of a byte sequence under the character-map strategy as the
specification states it: the input as consecutive non-overlapping 2-byte
big-endian codes, unmapped codes silently dropped.  (Second definition
for the refinement comparison of the cmap branch.) -/
def cmapChunksDecode (m : List (Nat × Str)) (data : List Nat) : Str :=
  ((utf16Units data).filterMap (fun c => mget m c)).flatten

/-! ## Text state tracking (pdf_tools.rs lines 179-255) -/

/-- Text transformation matrix (model of euclid `Transform2D`, row-major
with translation components `m31 m32`). -/
structure TMatrix where
  m11 : ℚ
  m12 : ℚ
  m21 : ℚ
  m22 : ℚ
  m31 : ℚ
  m32 : ℚ
deriving DecidableEq, Repr

/-- Identity transform (`Transform2D::default`). -/
def TMatrix.identityM : TMatrix := ⟨1, 0, 0, 1, 0, 0⟩

/-- `Transform2D::pre_translate`: translate before the transform. -/
def TMatrix.preTranslate (m : TMatrix) (x y : ℚ) : TMatrix :=
  { m with m31 := m.m11 * x + m.m21 * y + m.m31,
           m32 := m.m12 * x + m.m22 * y + m.m32 }

/-- `TextState` (pdf_tools.rs lines 179-185). -/
structure TextState where
  font : FontInfo
  font_size : ℚ
  text_leading : ℚ
  text_matrix : TMatrix
deriving DecidableEq, Repr

/-- `TextState::default`. -/
def TextState.default : TextState := ⟨FontInfo.default, 0, 0, TMatrix.identityM⟩

/-- Content-stream operators relevant to text (the `pdf` crate's `Op`
variants that `ops_with_text_state` and `extract_page_texts` inspect; all
others are collapsed into `otherOp`). -/
inductive Op
  | BeginText
  | GraphicsState (name : Str)
  | TextFont (name : Str) (size : ℚ)
  | Leading (leading : ℚ)
  | TextNewline
  | MoveTextPosition (dx dy : ℚ)
  | SetTextMatrix (m : TMatrix)
  | TextDraw (text : List Nat)
  | otherOp
deriving DecidableEq, Repr

/-- Per-page font registry (pdf_tools.rs lines 82-177).  `populate`
resolves the page's resource dictionaries through the external pdf
crate; the resulting name→font tables are modelled as association
lists. -/
structure FontCache where
  fonts : List (Str × FontInfo)
  gsFonts : List (Str × FontInfo × ℚ)

/-- `FontCache::get_by_font_name` (pdf_tools.rs lines 156-158): unknown
names resolve to the default (passthrough) font. -/
def FontCache.get_by_font_name (c : FontCache) (n : Str) : FontInfo :=
  (((c.fonts.find? (fun p => p.1 == n)).map (fun p => p.2)).getD FontInfo.default)

/-- `FontCache::get_by_graphic_state_name` (pdf_tools.rs lines 160-176). -/
def FontCache.get_by_graphic_state_name (c : FontCache) (n : Str) : Option (FontInfo × ℚ) :=
  (c.gsFonts.find? (fun p => p.1 == n)).map (fun p => p.2)

/-- State transition of one operator (the `match op` of
`ops_with_text_state`, pdf_tools.rs lines 204-249). -/
def applyOp (cache : FontCache) (st : TextState) (op : Op) : TextState :=
  match op with
  | Op.BeginText => TextState.default
  | Op.GraphicsState n =>
    match cache.get_by_graphic_state_name n with
    | some fs => { st with font := fs.1, font_size := fs.2 }
    | Option.none => st
  | Op.TextFont n sz => { st with font := cache.get_by_font_name n, font_size := sz }
  | Op.Leading l => { st with text_leading := l }
  | Op.TextNewline =>
    { st with text_matrix := st.text_matrix.preTranslate 0 st.text_leading }
  | Op.MoveTextPosition dx dy => { st with text_matrix := st.text_matrix.preTranslate dx dy }
  | Op.SetTextMatrix m => { st with text_matrix := m }
  | _ => st

/-- Model of `ops_with_text_state` (pdf_tools.rs lines 187-255): a scan
over the operator list pairing every operator with the state snapshot
current after processing it (for a draw operator, the state active at
draw time). -/
def ops_with_text_state (cache : FontCache) : TextState → List Op → List (Op × TextState)
  | _, [] => []
  | st, op :: rest =>
    let st' := applyOp cache st op
    (op, st') :: ops_with_text_state cache st' rest

/-- The per-operator body of `extract_page_texts` (main.rs lines
299-310): a `TextDraw` operator's raw bytes interpreted as UTF-8,
trimmed, dropped when invalid or empty. -/
def rawFragOf (op : Op) : Option Str :=
  match op with
  | Op.TextDraw bytes =>
    match utf8Decode bytes with
    | some s => if trimL s = [] then Option.none else some (trimL s)
    | Option.none => Option.none
  | _ => Option.none

/-- Model of `extract_page_texts` (main.rs lines 298-312).  No font
decoder and no text state is consulted. -/
def extract_page_texts (ops : List Op) : List Str :=
  ops.filterMap rawFragOf

/-- The fragment a draw operator yields when its bytes are decoded by
the font of the paired text state, with the same trimming and
empty-fragment filtering the row machine's extractor applies. -/
def decodeFragOf (p : Op × TextState) : Option Str :=
  match p.1 with
  | Op.TextDraw bytes =>
    match p.2.font.decode bytes [] with
    | Except.ok s => if trimL s = [] then Option.none else some (trimL s)
    | Except.error _ => Option.none
  | _ => Option.none

/-- The fragment stream claim C1 describes: each draw operator's bytes
decoded under the text state active at draw time.  (Second definition,
following the claim's words, for the refinement comparison.) -/
def decodedFragments (cache : FontCache) (ops : List Op) : List Str :=
  (ops_with_text_state cache TextState.default ops).filterMap decodeFragOf

/-! ## Predicates used to state the row-machine claims -/

/-- Fragment that is neither a section-start label, a section terminator,
nor a date anchor: processing it keeps the machine inside the current
row. -/
abbrev NeutralFrag (t : Str) : Prop :=
  t ≠ "Domestic Transactions".data ∧ t ≠ "International Transactions".data ∧
  is_section_terminator t = false ∧ parse_transaction_date t = none

/-- Flag configuration of a state that is scanning row content. -/
abbrev InRowReady (s : ParserState) : Prop :=
  s.in_transactions = true ∧ s.past_header = true ∧
  s.skip_next_non_date = false ∧ s.in_row = true

/-- Flag configuration of a state about to receive a date anchor. -/
abbrev RowEntry (s : ParserState) : Prop :=
  s.in_transactions = true ∧ s.past_header = true ∧ s.skip_next_non_date = false

/-- No credit evidence in a fragment: it is not the standalone "+"
marker, not the "Cr" marker, and not an amount fragment whose cleaned
text is '+'-prefixed. -/
abbrev NoCreditEvidence (t : Str) : Prop :=
  t ≠ "+".data ∧ t ≠ "Cr".data ∧
  ¬(t.contains '.' = true ∧ headIs '+' (cleanAmount t) = true)

/-- The fragment is not an amount fragment whose cleaned text is
'-'-prefixed (the extra exclusion the amended claim C4 needs). -/
abbrev NoNegAmount (t : Str) : Prop :=
  ¬(t.contains '.' = true ∧ headIs '-' (cleanAmount t) = true)

/-- The fragment is not a parseable settlement-amount fragment at all. -/
abbrev AmountFree (t : Str) : Prop :=
  ¬(t.contains '.' = true ∧ (parse_amount t false).isSome = true)

/-- Occurrence of an unpaired surrogate in a 16-bit unit sequence, for
characterizing when UTF-16BE decoding fails. -/
def hasUnpairedSurr : List Nat → Bool
  | [] => false
  | u :: r =>
    if isHighSurr u then
      match r with
      | lo :: r' => if isLowSurr lo then hasUnpairedSurr r' else true
      | [] => true
    else if isLowSurr u then true
    else hasUnpairedSurr r

/-- A draw operator whose bytes are plain UTF-8 (no byte-order mark)
drawn under the default passthrough font; non-draw operators pass. -/
def plainDrawP (p : Op × TextState) : Bool :=
  match p.1 with
  | Op.TextDraw b =>
    decide (p.2.font = FontInfo.default) && !startsWithBOM b && (utf8Decode b).isSome
  | _ => true

/-! ## Theorems -/

/-! ### Date-format lemmas (for claim C3) -/

lemma takeWhile_eq_cons {p : Char → Bool} {l : Str} {c : Char} {t : Str}
    (h : l.takeWhile p = c :: t) : ∃ l', l = c :: l' ∧ p c = true := by
  cases l with
  | nil => simp at h
  | cons a l' =>
    rw [List.takeWhile_cons] at h
    by_cases hp : p a
    · simp only [hp, if_true] at h
      refine ⟨l', ?_, ?_⟩
      · rw [List.cons.injEq] at h
        rw [h.1]
      · rw [List.cons.injEq] at h
        rw [← h.1]
        exact hp
    · simp [hp] at h

lemma scanNum_some_head {k : Nat} {cs : Str} {n : Nat} {r : Str}
    (h : scanNum k cs = some (n, r)) :
    ∃ c t, cs.dropWhile Char.isWhitespace = c :: t ∧ c.isDigit = true := by
  unfold scanNum at h
  by_cases hds : ((cs.dropWhile Char.isWhitespace).takeWhile Char.isDigit).take k = []
  · simp [hds] at h
  · cases htw : (cs.dropWhile Char.isWhitespace).takeWhile Char.isDigit with
    | nil => rw [htw] at hds; simp at hds
    | cons c t =>
      obtain ⟨l', hl, hc⟩ := takeWhile_eq_cons htw
      exact ⟨c, l', hl, hc⟩

lemma scanNum_none_of_head {k : Nat} {cs : Str} {c : Char} {t : Str}
    (h1 : cs.dropWhile Char.isWhitespace = c :: t) (h2 : c.isDigit = false) :
    scanNum k cs = none := by
  unfold scanNum
  rw [h1]
  simp [List.takeWhile_cons, h2]

lemma scanLit_some {c : Char} {l r : Str} (h : scanLit c l = some r) : l = c :: r := by
  cases l with
  | nil => simp [scanLit] at h
  | cons d t =>
    unfold scanLit at h
    by_cases hd : d = c
    · rw [hd] at h ⊢
      simp at h
      rw [h]
    · simp [hd] at h

lemma scanHM_head {cs : Str} {h mi : Nat} {r : Str}
    (hs : scanHM cs = some (h, mi, r)) :
    ∃ c t, cs.dropWhile Char.isWhitespace = c :: t ∧ c.isDigit = true := by
  unfold scanHM at hs
  cases h1 : scanNum 2 cs with
  | none => rw [h1] at hs; simp at hs
  | some p =>
    obtain ⟨n, r1⟩ := p
    exact scanNum_some_head h1

lemma scanHM_none {cs : Str} {c : Char} {t : Str}
    (h1 : cs.dropWhile Char.isWhitespace = c :: t) (h2 : c.isDigit = false) :
    scanHM cs = none := by
  unfold scanHM
  rw [scanNum_none_of_head h1 h2]

lemma fmtPipeA_shape {cs : Str} {v : DateTime} (h : fmtPipeA cs = some v) :
    ∃ d m y r1, scanDMY cs = some (d, m, y, '|' :: r1) := by
  unfold fmtPipeA at h
  split at h
  · simp at h
  next d m y r heq =>
    split at h
    · simp at h
    next r1 heq2 =>
      refine ⟨d, m, y, r1, ?_⟩
      rw [← scanLit_some heq2]
      exact heq

lemma fmtPipeB_shape {cs : Str} {v : DateTime} (h : fmtPipeB cs = some v) :
    ∃ d m y r r1, scanDMY cs = some (d, m, y, r) ∧
      r.dropWhile Char.isWhitespace = '|' :: r1 := by
  unfold fmtPipeB at h
  split at h
  · simp at h
  next d m y r heq =>
    split at h
    · simp at h
    next r1 heq2 =>
      exact ⟨d, m, y, r, r1, heq, scanLit_some heq2⟩

lemma fmtSeconds_shape {cs : Str} {v : DateTime} (h : fmtSeconds cs = some v) :
    ∃ d m y r c t, scanDMY cs = some (d, m, y, r) ∧
      r.dropWhile Char.isWhitespace = c :: t ∧ c.isDigit = true := by
  unfold fmtSeconds at h
  split at h
  · simp at h
  next d m y r heq =>
    split at h
    · simp at h
    next hh mi r2 heq2 =>
      obtain ⟨c, t, hct, hcd⟩ := scanHM_head heq2
      exact ⟨d, m, y, r, c, t, heq, hct, hcd⟩

lemma dropWhile_pipe (r1 : Str) :
    List.dropWhile Char.isWhitespace ('|' :: r1) = '|' :: r1 := by
  rw [List.dropWhile_cons]
  simp

lemma pipes_none_of_digit {cs : Str} {d m y : Nat} {r : Str} {c : Char} {t : Str}
    (hd : scanDMY cs = some (d, m, y, r))
    (hr : r.dropWhile Char.isWhitespace = c :: t) (hc : c.isDigit = true) :
    fmtPipeA cs = none ∧ fmtPipeB cs = none := by
  have hcp : c ≠ '|' := by
    intro heq
    rw [heq] at hc
    exact absurd hc (by decide)
  constructor
  · cases hres : fmtPipeA cs with
    | none => rfl
    | some w =>
      obtain ⟨d', m', y', r1, hd'⟩ := fmtPipeA_shape hres
      rw [hd] at hd'
      have hreq : r = '|' :: r1 := by
        simp only [Option.some.injEq, Prod.mk.injEq] at hd'
        exact hd'.2.2.2
      rw [hreq, dropWhile_pipe] at hr
      injection hr with hh _
      exact (hcp hh.symm).elim
  · cases hres : fmtPipeB cs with
    | none => rfl
    | some w =>
      obtain ⟨d', m', y', r', r1, hd', hw⟩ := fmtPipeB_shape hres
      rw [hd] at hd'
      have hreq : r = r' := by
        simp only [Option.some.injEq, Prod.mk.injEq] at hd'
        exact hd'.2.2.2
      rw [← hreq, hr] at hw
      injection hw with hh _
      exact (hcp hh).elim

lemma fmtDateOnly_time {cs : Str} {v : DateTime} (h : fmtDateOnly cs = some v) :
    v.hour = 0 ∧ v.minute = 0 ∧ v.second = 0 := by
  unfold fmtDateOnly at h
  split at h
  · simp at h
  next d m y r heq =>
    split at h
    · simp only [Option.some.injEq] at h
      rw [← h]
      exact ⟨rfl, rfl, rfl⟩
    · simp at h

/-- Claim C3: the order in which the recognized date formats are tried
does not affect the parsed result — the function of the source (pipe
formats first) and the function trying the seconds format first, as the
claim states the order, agree on every input — and a fragment recognized
only by the date-only format is anchored at midnight. -/
theorem claim_C3_date_format_order :
    ∀ cs : Str,
      parse_transaction_date cs = parse_transaction_date_specOrder cs
      ∧ (∀ v, parse_transaction_date cs = some v →
          fmtPipeA cs = none → fmtPipeB cs = none → fmtSeconds cs = none →
          v.hour = 0 ∧ v.minute = 0 ∧ v.second = 0) := by
  intro cs
  constructor
  · unfold parse_transaction_date parse_transaction_date_specOrder
    cases hs : fmtSeconds cs with
    | none =>
      cases fmtPipeA cs <;> cases fmtPipeB cs <;> rfl
    | some v =>
      obtain ⟨d, m, y, r, c, t, hd, hct, hcd⟩ := fmtSeconds_shape hs
      obtain ⟨hA, hB⟩ := pipes_none_of_digit hd hct hcd
      rw [hA, hB]
  · intro v hv hA hB hs
    unfold parse_transaction_date at hv
    rw [hA, hB, hs] at hv
    exact fmtDateOnly_time hv

/-! ### Row-machine lemmas (for claims C4, C6, C8, C10) -/

lemma startsWithL_cons {a : Char} {p s : Str} (h : startsWithL (a :: p) s = true) :
    ∃ r, s = a :: r ∧ startsWithL p r = true := by
  cases s with
  | nil => simp [startsWithL] at h
  | cons b t =>
    unfold startsWithL at h
    rw [Bool.and_eq_true] at h
    refine ⟨t, ?_, h.2⟩
    have : a = b := by
      have := h.1
      exact eq_of_beq this
    rw [this]

lemma startsWithL_false_of_head {a : Char} {p : Str} {b : Char} {s : Str} (h : a ≠ b) :
    startsWithL (a :: p) (b :: s) = false := by
  unfold startsWithL
  have hab : (a == b) = false := beq_eq_false_iff_ne.mpr h
  rw [hab, Bool.false_and]

lemma dropWhile_cons_of_neg {c : Char} {r : Str} (h : c.isWhitespace = false) :
    List.dropWhile Char.isWhitespace (c :: r) = c :: r := by
  rw [List.dropWhile_cons, h]
  simp

lemma scanDMY_none_of_head {c : Char} {r : Str}
    (hw : c.isWhitespace = false) (hd : c.isDigit = false) :
    scanDMY (c :: r) = none := by
  unfold scanDMY
  rw [scanNum_none_of_head (dropWhile_cons_of_neg hw) hd]

lemma parse_none_of_head {c : Char} {r : Str}
    (hw : c.isWhitespace = false) (hd : c.isDigit = false) :
    parse_transaction_date (c :: r) = none := by
  have h := @scanDMY_none_of_head c r hw hd
  simp [parse_transaction_date, fmtPipeA, fmtPipeB, fmtSeconds, fmtDateOnly, h]

lemma parse_terminators_none : ∀ t ∈ SECTION_TERMINATORS, parse_transaction_date t = none := by
  decide

lemma contains_mem {t : Str} {l : List Str} (h : l.contains t = true) : t ∈ l := by
  rw [List.contains_iff_exists_mem_beq] at h
  obtain ⟨x, hx, hbeq⟩ := h
  have : t = x := eq_of_beq hbeq
  rw [this]
  exact hx

lemma date_not_terminator {d : Str} {dt : DateTime}
    (hd : parse_transaction_date d = some dt) : is_section_terminator d = false := by
  rcases Bool.eq_false_or_eq_true (is_section_terminator d) with h | h
  swap
  · exact h
  · exfalso
    unfold is_section_terminator at h
    rw [Bool.or_eq_true] at h
    rcases h with h | h
    · have hmem := contains_mem h
      rw [parse_terminators_none d hmem] at hd
      cases hd
    · obtain ⟨r, hr, _⟩ := startsWithL_cons h
      rw [hr, parse_none_of_head (by decide) (by decide)] at hd
      cases hd

lemma date_not_dom {d : Str} {dt : DateTime} (hd : parse_transaction_date d = some dt) :
    d ≠ "Domestic Transactions".data := by
  intro heq
  rw [heq] at hd
  have : parse_transaction_date ("Domestic Transactions".data) = none := by decide
  rw [this] at hd
  cases hd

lemma date_not_intl {d : Str} {dt : DateTime} (hd : parse_transaction_date d = some dt) :
    d ≠ "International Transactions".data := by
  intro heq
  rw [heq] at hd
  have : parse_transaction_date ("International Transactions".data) = none := by decide
  rw [this] at hd
  cases hd

lemma step_to_stepMain {name : Str} {s : ParserState} {t : Str}
    (h1 : s.in_transactions = true) (h2 : s.past_header = true)
    (h3 : s.skip_next_non_date = false)
    (h4 : t ≠ "Domestic Transactions".data) (h5 : t ≠ "International Transactions".data) :
    step name s t = stepMain s t := by
  simp [step, h1, h2, h3, h4, h5]

lemma stepMain_neutral {s : ParserState} {t : Str}
    (hterm : is_section_terminator t = false)
    (hdate : parse_transaction_date t = none) :
    stepMain s t = (handleRow s t, []) := by
  simp [stepMain, hterm, hdate]

lemma step_neutral {name : Str} {s : ParserState} {t : Str}
    (hR : RowEntry s) (hN : NeutralFrag t) :
    step name s t = (handleRow s t, []) := by
  obtain ⟨h1, h2, h3⟩ := hR
  obtain ⟨h4, h5, h6, h7⟩ := hN
  rw [step_to_stepMain h1 h2 h3 h4 h5, stepMain_neutral h6 h7]

lemma step_date {name : Str} {s : ParserState} {d : Str} {dt : DateTime}
    (hR : RowEntry s) (hd : parse_transaction_date d = some dt) :
    step name s d = (start_new_transaction (flush_transaction s).1 dt, (flush_transaction s).2) := by
  obtain ⟨h1, h2, h3⟩ := hR
  rw [step_to_stepMain h1 h2 h3 (date_not_dom hd) (date_not_intl hd)]
  simp [stepMain, date_not_terminator hd, hd]

lemma decimalVal_nonneg (intD fracD : List Char) (e : Int) : 0 ≤ decimalVal intD fracD e := by
  unfold decimalVal
  split
  · rw [Rat.mkRat_eq_div]
    apply div_nonneg
    · push_cast
      positivity
    · norm_num
  · rw [Rat.mkRat_eq_div]
    apply div_nonneg
    · push_cast
      positivity
    · push_cast
      positivity

lemma parseF32Unsigned_nonneg {cs : Str} {q : ℚ} (h : parseF32Unsigned cs = some q) :
    0 ≤ q := by
  unfold parseF32Unsigned at h
  split at h
  · split at h
    · split at h
      · cases h
      · split at h
        · rw [Option.some.injEq] at h
          rw [← h]
          apply decimalVal_nonneg
        · cases h
    · split at h
      · cases h
      · split at h
        · rw [Option.some.injEq] at h
          rw [← h]
          apply decimalVal_nonneg
        · cases h
  · split at h
    · cases h
    · split at h
      · rw [Option.some.injEq] at h
        rw [← h]
        apply decimalVal_nonneg
      · cases h

lemma parseF32_nonneg {cs : Str} {q : ℚ} (hh : headIs '-' cs = false)
    (h : parseF32 cs = some q) : 0 ≤ q := by
  cases cs with
  | nil =>
    simp only [parseF32] at h
    exact parseF32Unsigned_nonneg h
  | cons c r =>
    simp only [parseF32] at h
    by_cases hc : c = '+'
    · rw [if_pos hc] at h
      exact parseF32Unsigned_nonneg h
    · rw [if_neg hc] at h
      have hcm : ¬(c = '-') := by
        intro heq
        rw [heq] at hh
        simp [headIs] at hh
      rw [if_neg hcm] at h
      exact parseF32Unsigned_nonneg h

lemma parse_amount_nonpos {t : Str} {v : ℚ}
    (h3 : headIs '+' (cleanAmount t) = false) (h4 : headIs '-' (cleanAmount t) = false)
    (hv : parse_amount t false = some v) : v ≤ 0 := by
  unfold parse_amount at hv
  rw [h3] at hv
  simp only [Bool.false_eq_true, if_false, Option.map_eq_some'] at hv
  obtain ⟨u, hu, hvu⟩ := hv
  have := parseF32_nonneg h4 hu
  rw [← hvu]
  exact neg_nonpos_of_nonneg this

lemma parse_amount_isSome (t : Str) (b : Bool) :
    (parse_amount t b).isSome = (parse_amount t false).isSome := by
  by_cases hp : headIs '+' (cleanAmount t) = true
  · simp [parse_amount, hp]
  · rw [Bool.not_eq_true] at hp
    cases b <;> simp [parse_amount, hp]

lemma handleRow_flags (s : ParserState) (t : Str) :
    (handleRow s t).in_transactions = s.in_transactions
    ∧ (handleRow s t).past_header = s.past_header
    ∧ (handleRow s t).skip_next_non_date = s.skip_next_non_date
    ∧ (handleRow s t).in_row = s.in_row := by
  unfold handleRow
  repeat' split
  all_goals simp

lemma handleRow_sign {s : ParserState} {t : Str}
    (hcr : s.is_credit = false) (ham : s.transaction.amount ≤ 0)
    (h1 : t ≠ "+".data) (h2 : t ≠ "Cr".data)
    (h3 : ¬(t.contains '.' = true ∧ headIs '+' (cleanAmount t) = true))
    (h4 : ¬(t.contains '.' = true ∧ headIs '-' (cleanAmount t) = true)) :
    (handleRow s t).is_credit = false ∧ (handleRow s t).transaction.amount ≤ 0 := by
  unfold handleRow
  by_cases hrow : s.in_row = false
  · rw [if_pos hrow]
    exact ⟨hcr, ham⟩
  · rw [if_neg hrow]
    by_cases hsk : is_skippable_symbol t = true
    · rw [if_pos hsk, if_neg h1, if_neg h2]
      exact ⟨hcr, ham⟩
    · rw [if_neg hsk]
      by_cases hpg : (is_page_number t || is_page_header t) = true
      · rw [if_pos hpg]
        exact ⟨hcr, ham⟩
      · rw [if_neg hpg]
        by_cases hfc : is_foreign_currency t = true
        · rw [if_pos hfc]
          exact ⟨hcr, ham⟩
        · rw [if_neg hfc]
          cases heq : amountOpt s t with
          | some amt =>
            simp only [heq]
            unfold amountOpt at heq
            split at heq
            next hdot =>
              rw [hcr] at heq
              have hplus : headIs '+' (cleanAmount t) = false := by
                rcases Bool.eq_false_or_eq_true (headIs '+' (cleanAmount t)) with hb | hb
                · exact absurd ⟨hdot, hb⟩ h3
                · exact hb
              have hminus : headIs '-' (cleanAmount t) = false := by
                rcases Bool.eq_false_or_eq_true (headIs '-' (cleanAmount t)) with hb | hb
                · exact absurd ⟨hdot, hb⟩ h4
                · exact hb
              refine ⟨by simp, ?_⟩
              exact parse_amount_nonpos hplus hminus heq
            next => cases heq
          | none =>
            simp only [heq]
            cases hpt : parse_points t with
            | some p =>
              simp only [hpt]
              exact ⟨hcr, ham⟩
            | none =>
              simp only [hpt]
              by_cases hha : s.has_amount = true
              · rw [if_pos hha]
                exact ⟨hcr, ham⟩
              · rw [if_neg hha]
                refine ⟨hcr, ?_⟩
                by_cases hdesc : s.transaction.description = []
                · rw [if_pos hdesc]
                  exact ham
                · rw [if_neg hdesc]
                  exact ham

lemma handleRow_frozen {s : ParserState} {t : Str}
    (h1 : t ≠ "+".data) (h2 : t ≠ "Cr".data) (h5 : AmountFree t) :
    (handleRow s t).is_credit = s.is_credit
    ∧ (handleRow s t).transaction.amount = s.transaction.amount := by
  unfold handleRow
  by_cases hrow : s.in_row = false
  · rw [if_pos hrow]
    exact ⟨rfl, rfl⟩
  · rw [if_neg hrow]
    by_cases hsk : is_skippable_symbol t = true
    · rw [if_pos hsk, if_neg h1, if_neg h2]
      exact ⟨rfl, rfl⟩
    · rw [if_neg hsk]
      by_cases hpg : (is_page_number t || is_page_header t) = true
      · rw [if_pos hpg]
        exact ⟨rfl, rfl⟩
      · rw [if_neg hpg]
        by_cases hfc : is_foreign_currency t = true
        · rw [if_pos hfc]
          exact ⟨rfl, rfl⟩
        · rw [if_neg hfc]
          cases heq : amountOpt s t with
          | some amt =>
            exfalso
            unfold amountOpt at heq
            split at heq
            next hdot =>
              apply h5
              refine ⟨hdot, ?_⟩
              rw [← parse_amount_isSome t s.is_credit, heq]
              rfl
            next => cases heq
          | none =>
            simp only [heq]
            cases hpt : parse_points t with
            | some p =>
              simp only [hpt]
              refine ⟨?_, ?_⟩ <;> trivial
            | none =>
              simp only [hpt]
              by_cases hha : s.has_amount = true
              · rw [if_pos hha]
                exact ⟨rfl, rfl⟩
              · rw [if_neg hha]
                refine ⟨rfl, ?_⟩
                by_cases hdesc : s.transaction.description = []
                · rw [if_pos hdesc]
                · rw [if_neg hdesc]

lemma InRowReady.entry {s : ParserState} (h : InRowReady s) : RowEntry s :=
  ⟨h.1, h.2.1, h.2.2.1⟩

lemma f32Abs_nonneg (q : ℚ) : 0 ≤ f32Abs q := by
  unfold f32Abs
  split
  next h =>
    have hq : ¬(0 ≤ q) := fun hle => absurd (Rat.num_nonneg.mpr hle) (not_le.mpr h)
    have : q < 0 := lt_of_not_le hq
    linarith
  next h =>
    exact Rat.num_nonneg.mp (le_of_not_lt h)

lemma flush_fst_fields (s : ParserState) :
    (flush_transaction s).1.in_transactions = s.in_transactions
    ∧ (flush_transaction s).1.past_header = s.past_header
    ∧ (flush_transaction s).1.skip_next_non_date = s.skip_next_non_date := by
  unfold flush_transaction
  split <;> simp

lemma flush_amount_mem (s : ParserState) :
    ∀ tr ∈ (flush_transaction s).2, tr.amount = s.transaction.amount := by
  unfold flush_transaction
  split
  · intro tr htr
    rw [List.mem_singleton] at htr
    rw [htr]
    unfold flushedTx
    split <;> rfl
  · intro tr htr
    simp at htr

lemma flush_empty_desc {s : ParserState} (h : s.transaction.description = []) :
    (flush_transaction s).2 = [] := by
  unfold flush_transaction
  rw [if_neg]
  intro hc
  exact hc.2 h

lemma foreign_head_mem {t : Str} (h : is_foreign_currency t = true) :
    ∃ c r, t = c :: r ∧
      (c = 'U' ∨ c = 'J' ∨ c = 'M' ∨ c = 'E' ∨ c = 'G' ∨ c = 'S' ∨ c = 'A' ∨ c = 'T') := by
  unfold is_foreign_currency FOREIGN_CURRENCY_LABELS at h
  simp only [List.any_cons, List.any_nil, Bool.or_eq_true, Bool.or_false] at h
  rcases h with h | h | h | h | h | h | h | h
  · obtain ⟨r, hr, _⟩ := startsWithL_cons h
    exact ⟨'U', r, hr, by tauto⟩
  · obtain ⟨r, hr, _⟩ := startsWithL_cons h
    exact ⟨'J', r, hr, by tauto⟩
  · obtain ⟨r, hr, _⟩ := startsWithL_cons h
    exact ⟨'M', r, hr, by tauto⟩
  · obtain ⟨r, hr, _⟩ := startsWithL_cons h
    exact ⟨'E', r, hr, by tauto⟩
  · obtain ⟨r, hr, _⟩ := startsWithL_cons h
    exact ⟨'G', r, hr, by tauto⟩
  · obtain ⟨r, hr, _⟩ := startsWithL_cons h
    exact ⟨'S', r, hr, by tauto⟩
  · obtain ⟨r, hr, _⟩ := startsWithL_cons h
    exact ⟨'A', r, hr, by tauto⟩
  · obtain ⟨r, hr, _⟩ := startsWithL_cons h
    exact ⟨'T', r, hr, by tauto⟩

lemma step_foreign {name : Str} {s : ParserState} {t : Str}
    (hR : InRowReady s) (hfc : is_foreign_currency t = true)
    (hph : is_page_header t = false) :
    step name s t = ({ s with desc_parts := s.desc_parts ++ [t] }, []) := by
  obtain ⟨c, r, ht, hc⟩ := foreign_head_mem hfc
  have hdom : t ≠ "Domestic Transactions".data := by
    intro heq
    rw [heq] at hfc
    exact absurd hfc (by decide)
  have hintl : t ≠ "International Transactions".data := by
    intro heq
    rw [heq] at hfc
    exact absurd hfc (by decide)
  have hterm : is_section_terminator t = false := by
    rcases Bool.eq_false_or_eq_true (is_section_terminator t) with hb | hb
    · exfalso
      unfold is_section_terminator at hb
      rw [Bool.or_eq_true] at hb
      rcases hb with hb | hb
      · have hmem := contains_mem hb
        fin_cases hmem <;> exact absurd hfc (by decide)
      · rw [show ("*Transaction time".data) = '*' :: ("Transaction time".data) from rfl] at hb
        obtain ⟨rr, hrr, _⟩ := startsWithL_cons hb
        rw [ht] at hrr
        injection hrr with h1 _
        rcases hc with hc | hc | hc | hc | hc | hc | hc | hc <;>
          (rw [hc] at h1; exact absurd h1 (by decide))
    · exact hb
  have hw : c.isWhitespace = false := by
    rcases hc with hc | hc | hc | hc | hc | hc | hc | hc <;> (rw [hc]; decide)
  have hdig : c.isDigit = false := by
    rcases hc with hc | hc | hc | hc | hc | hc | hc | hc <;> (rw [hc]; decide)
  have hdate : parse_transaction_date t = none := by
    rw [ht]
    exact parse_none_of_head hw hdig
  have hskip : is_skippable_symbol t = false := by
    rcases Bool.eq_false_or_eq_true (is_skippable_symbol t) with hb | hb
    · exfalso
      unfold is_skippable_symbol at hb
      simp only [Bool.or_eq_true, beq_iff_eq] at hb
      rcases hb with ((((((hb | hb) | hb) | hb) | hb) | hb) | hb) <;>
        (rw [hb] at hfc; exact absurd hfc (by decide))
    · exact hb
  have hpn : is_page_number t = false := by
    unfold is_page_number
    have hsp : startsWithL ("Page ".data) t = false := by
      rw [ht, show ("Page ".data) = 'P' :: ("age ".data) from rfl]
      apply startsWithL_false_of_head
      rcases hc with hc | hc | hc | hc | hc | hc | hc | hc <;> (subst hc; decide)
    rw [hsp, Bool.false_and]
  rw [step_neutral hR.entry ⟨hdom, hintl, hterm, hdate⟩]
  simp [handleRow, hR.2.2.2, hskip, hpn, hph, hfc]

lemma runSteps_neutral_basic (name : Str) (mid : List Str) : ∀ s : ParserState,
    InRowReady s → (∀ t ∈ mid, NeutralFrag t) →
    (runSteps name s mid).2 = [] ∧ InRowReady (runSteps name s mid).1 := by
  induction mid with
  | nil =>
    intro s h1 _
    exact ⟨rfl, h1⟩
  | cons t ts ih =>
    intro s hR hall
    have hstep := @step_neutral name s t hR.entry (hall t (List.mem_cons_self t ts))
    have hflags := handleRow_flags s t
    have hR' : InRowReady (handleRow s t) :=
      ⟨hflags.1.trans hR.1, hflags.2.1.trans hR.2.1,
       hflags.2.2.1.trans hR.2.2.1, hflags.2.2.2.trans hR.2.2.2⟩
    have hrec := ih (handleRow s t) hR' (fun u hu => hall u (List.mem_cons_of_mem t hu))
    simp only [runSteps, hstep]
    exact ⟨by rw [List.nil_append]; exact hrec.1, hrec.2⟩

lemma runSteps_neutral_sign (name : Str) (mid : List Str) : ∀ s : ParserState,
    InRowReady s → s.is_credit = false → s.transaction.amount ≤ 0 →
    (∀ t ∈ mid, NeutralFrag t ∧ NoCreditEvidence t ∧ NoNegAmount t) →
    (runSteps name s mid).2 = [] ∧ InRowReady (runSteps name s mid).1
    ∧ (runSteps name s mid).1.is_credit = false
    ∧ (runSteps name s mid).1.transaction.amount ≤ 0 := by
  induction mid with
  | nil =>
    intro s h1 h2 h3 _
    exact ⟨rfl, h1, h2, h3⟩
  | cons t ts ih =>
    intro s hR hcr ham hall
    obtain ⟨hN, hCE, hNN⟩ := hall t (List.mem_cons_self t ts)
    obtain ⟨hce1, hce2, hce3⟩ := hCE
    have hstep := @step_neutral name s t hR.entry hN
    have hflags := handleRow_flags s t
    have hsign := handleRow_sign hcr ham hce1 hce2 hce3 hNN
    have hR' : InRowReady (handleRow s t) :=
      ⟨hflags.1.trans hR.1, hflags.2.1.trans hR.2.1,
       hflags.2.2.1.trans hR.2.2.1, hflags.2.2.2.trans hR.2.2.2⟩
    have hrec := ih (handleRow s t) hR' hsign.1 hsign.2
      (fun u hu => hall u (List.mem_cons_of_mem t hu))
    simp only [runSteps, hstep]
    exact ⟨by rw [List.nil_append]; exact hrec.1, hrec.2⟩

lemma runSteps_frozen (name : Str) (mid : List Str) : ∀ s : ParserState,
    InRowReady s →
    (∀ t ∈ mid, NeutralFrag t ∧ t ≠ "+".data ∧ t ≠ "Cr".data ∧ AmountFree t) →
    (runSteps name s mid).2 = [] ∧ InRowReady (runSteps name s mid).1
    ∧ (runSteps name s mid).1.transaction.amount = s.transaction.amount := by
  induction mid with
  | nil =>
    intro s h1 _
    exact ⟨rfl, h1, rfl⟩
  | cons t ts ih =>
    intro s hR hall
    obtain ⟨hN, hp, hcr2, hAF⟩ := hall t (List.mem_cons_self t ts)
    have hstep := @step_neutral name s t hR.entry hN
    have hflags := handleRow_flags s t
    have hfroz := @handleRow_frozen s t hp hcr2 hAF
    have hR' : InRowReady (handleRow s t) :=
      ⟨hflags.1.trans hR.1, hflags.2.1.trans hR.2.1,
       hflags.2.2.1.trans hR.2.2.1, hflags.2.2.2.trans hR.2.2.2⟩
    have hrec := ih (handleRow s t) hR' (fun u hu => hall u (List.mem_cons_of_mem t hu))
    simp only [runSteps, hstep]
    refine ⟨by rw [List.nil_append]; exact hrec.1, hrec.2.1, ?_⟩
    rw [hrec.2.2, hfroz.2]

lemma runSteps_append (name : Str) (l1 l2 : List Str) : ∀ s : ParserState,
    runSteps name s (l1 ++ l2)
      = ((runSteps name (runSteps name s l1).1 l2).1,
         (runSteps name s l1).2 ++ (runSteps name (runSteps name s l1).1 l2).2) := by
  induction l1 with
  | nil =>
    intro s
    simp [runSteps]
  | cons t ts ih =>
    intro s
    simp only [List.cons_append, runSteps, List.append_eq]
    rw [ih]
    rw [List.append_assoc]

lemma step_cr {name : Str} {s : ParserState} (hR : InRowReady s) :
    step name s ("Cr".data)
      = ({ s with transaction :=
            { s.transaction with amount := f32Abs s.transaction.amount } }, []) := by
  have hN : NeutralFrag ("Cr".data) := ⟨by decide, by decide, by decide, by decide⟩
  rw [step_neutral hR.entry hN]
  have hsk : is_skippable_symbol ("Cr".data) = true := by decide
  have hne : ¬(("Cr".data : Str) = "+".data) := by decide
  simp [handleRow, hR.2.2.2, hsk, hne]

/-- Claim C4 (amended): fix a row anchored at date fragment `d` with row
fragments `mid`, scanned from a mid-section state.  If no fragment of
`mid` carries credit evidence and no amount fragment of `mid` is
negative-signed, every transaction emitted for this row has a
non-positive amount; and if the only credit evidence in `mid` is a
single "Cr" fragment after which no further amount fragment occurs,
every transaction emitted for this row has a non-negative amount. -/
theorem claim_C4_amended :
    ∀ (name : Str) (s : ParserState) (d : Str) (mid : List Str),
      RowEntry s → (parse_transaction_date d).isSome = true →
      ((∀ t ∈ mid, NeutralFrag t ∧ NoCreditEvidence t ∧ NoNegAmount t) →
        ∀ tr ∈ rowEmissions name s d mid, tr.amount ≤ 0)
      ∧ (∀ m1 m2, mid = m1 ++ ("Cr".data) :: m2 →
          (∀ t ∈ m1, NeutralFrag t ∧ NoCreditEvidence t) →
          (∀ t ∈ m2, NeutralFrag t ∧ NoCreditEvidence t ∧ AmountFree t) →
          ∀ tr ∈ rowEmissions name s d mid, 0 ≤ tr.amount) := by
  intro name s d mid hRE hsome
  obtain ⟨dt, hdt⟩ := Option.isSome_iff_exists.mp hsome
  have hstepd := @step_date name s d dt hRE hdt
  have hR1 : InRowReady (step name s d).1 := by
    rw [hstepd]
    refine ⟨?_, ?_, ?_, ?_⟩
    · show (flush_transaction s).1.in_transactions = true
      rw [(flush_fst_fields s).1]
      exact hRE.1
    · show (flush_transaction s).1.past_header = true
      rw [(flush_fst_fields s).2.1]
      exact hRE.2.1
    · show (flush_transaction s).1.skip_next_non_date = false
      rw [(flush_fst_fields s).2.2]
      exact hRE.2.2
    · rfl
  have hcr1 : (step name s d).1.is_credit = false := by
    rw [hstepd]
    rfl
  have ham1 : (step name s d).1.transaction.amount ≤ 0 := by
    rw [hstepd]
    show (0 : ℚ) ≤ 0
    exact le_refl 0
  constructor
  · intro hall tr htr
    have hrun := runSteps_neutral_sign name mid (step name s d).1 hR1 hcr1 ham1 hall
    unfold rowEmissions rowState at htr
    rw [hrun.1, List.nil_append] at htr
    rw [flush_amount_mem _ tr htr]
    exact hrun.2.2.2
  · intro m1 m2 hmid hall1 hall2 tr htr
    subst hmid
    have hrun1 := runSteps_neutral_basic name m1 (step name s d).1 hR1
      (fun u hu => (hall1 u hu).1)
    have hcrstep := @step_cr name _ hrun1.2
    have hcrout : (step name (runSteps name (step name s d).1 m1).1 ("Cr".data)).2 = [] := by
      rw [hcrstep]
    have hR3 : InRowReady (step name (runSteps name (step name s d).1 m1).1 ("Cr".data)).1 := by
      rw [hcrstep]
      exact ⟨hrun1.2.1, hrun1.2.2.1, hrun1.2.2.2.1, hrun1.2.2.2.2⟩
    have habs : 0 ≤ (step name (runSteps name (step name s d).1 m1).1 ("Cr".data)).1.transaction.amount := by
      rw [hcrstep]
      exact f32Abs_nonneg _
    have hrun2 := runSteps_frozen name m2 _ hR3
      (fun u hu => ⟨(hall2 u hu).1, (hall2 u hu).2.1.1, (hall2 u hu).2.1.2.1, (hall2 u hu).2.2⟩)
    have hcons : runSteps name (runSteps name (step name s d).1 m1).1 (("Cr".data) :: m2)
        = ((runSteps name (step name (runSteps name (step name s d).1 m1).1 ("Cr".data)).1 m2).1,
           (step name (runSteps name (step name s d).1 m1).1 ("Cr".data)).2
             ++ (runSteps name (step name (runSteps name (step name s d).1 m1).1 ("Cr".data)).1 m2).2) :=
      rfl
    have hemits : rowEmissions name s d (m1 ++ ("Cr".data) :: m2)
        = (flush_transaction
            (runSteps name (step name (runSteps name (step name s d).1 m1).1 ("Cr".data)).1 m2).1).2 := by
      unfold rowEmissions rowState
      rw [runSteps_append name m1 (("Cr".data) :: m2) (step name s d).1, hcons]
      dsimp only
      rw [hrun1.1, hcrout, hrun2.1]
      rfl
    rw [hemits] at htr
    rw [flush_amount_mem _ tr htr, hrun2.2.2]
    exact habs

/-- Witness for claim C4: the concrete row `19/10/2025, "SHOP", "4.50"`
emits the amount -4.50, which is non-positive. -/
theorem claim_C4_witness :
    (⟨⟨2025, 10, 19, 0, 0, 0⟩, "SHOP".data, 0, mkRat (-9) 2⟩ : Transaction).amount ≤ 0 := by
  refine (claim_C4_amended ("N".data)
    ⟨true, true, false, false, false, false, Transaction.default, []⟩
    ("19/10/2025".data) ["SHOP".data, "4.50".data]
    ⟨rfl, rfl, rfl⟩ (by decide)).1 ?_ _ ?_
  · decide
  · decide

/-- Witness for claim C3 at the concrete inputs "19/10/2025| 00:57" and
"19/10/2025". -/
theorem claim_C3_witness :
    parse_transaction_date ("19/10/2025| 00:57".data)
        = parse_transaction_date_specOrder ("19/10/2025| 00:57".data)
    ∧ (⟨2025, 10, 19, 0, 0, 0⟩ : DateTime).hour = 0
      ∧ (⟨2025, 10, 19, 0, 0, 0⟩ : DateTime).minute = 0
      ∧ (⟨2025, 10, 19, 0, 0, 0⟩ : DateTime).second = 0 :=
  ⟨(claim_C3_date_format_order ("19/10/2025| 00:57".data)).1,
   (claim_C3_date_format_order ("19/10/2025".data)).2 ⟨2025, 10, 19, 0, 0, 0⟩
     (by decide) (by decide) (by decide) (by decide)⟩

/-- Claim C5: the canonical domestic-section fragment sequence with
cardholder name "Jane Doe" yields exactly one transaction with date
2025-10-19T00:57:00, description "AMAZON RETAIL", points 123 and amount
-1234.50. -/
theorem claim_C5_scenario :
    parsePage ("Jane Doe".data)
      ["Domestic Transactions".data, "Jane Doe".data, "PI".data, "Jane Doe".data,
       "19/10/2025| 00:57".data, "AMAZON RETAIL".data, "123".data, "1,234.50".data,
       "Page 1 of 2".data]
    = [⟨⟨2025, 10, 19, 0, 57, 0⟩, "AMAZON RETAIL".data, 123, mkRat (-2469) 2⟩] := by
  decide

/-- Claim C2 (code evaluation): on the byte-order-marked input
`FE FF 00 41 00 42` under a character map sending 0x0041 to "A", 0x0042
to "B" and 0x4100 to "X", the decoder walks *overlapping* windows and
produces "AXB", while the non-overlapping chunk reading stated by the
specification produces "AB". -/
theorem claim_C2_code_eval :
    FontInfo.decode ⟨Decoder.cmap [(65, "A".data), (66, "B".data), (16640, "X".data)]⟩
        [254, 255, 0, 65, 0, 66] []
      = Except.ok ("AXB".data)
    ∧ cmapChunksDecode [(65, "A".data), (66, "B".data), (16640, "X".data)]
        [254, 255, 0, 65, 0, 66]
      = "AB".data
    ∧ ("AXB".data : Str) ≠ "AB".data := by
  decide

/-- Claim C9 (counterexample): the amount fragment "+-5.0" begins with
'+' after cleaning, yet `parse_amount` returns the negative value -5,
not a positive (credit) value. -/
theorem claim_C9_counterexample :
    headIs '+' (cleanAmount ("+-5.0".data)) = true
    ∧ parse_amount ("+-5.0".data) false = some (mkRat (-5) 1)
    ∧ ¬(0 ≤ mkRat (-5) 1) := by
  decide

/-- Claim C4 (counterexample): a row whose fragments carry no credit
evidence (no "+" fragment, no "Cr" fragment, no '+'-prefixed amount) but
whose amount fragment is the negative-signed "-5.0" is emitted with the
strictly positive amount 5, violating the claimed non-positivity. -/
theorem claim_C4_counterexample :
    parsePage ("N".data)
      ["Domestic Transactions".data, "N".data, "PI".data, "X".data,
       "19/10/2025| 00:57".data, "SOMETHING".data, "-5.0".data]
    = [⟨⟨2025, 10, 19, 0, 57, 0⟩, "SOMETHING".data, 0, mkRat 5 1⟩]
    ∧ (∀ t ∈ (["Domestic Transactions".data, "N".data, "PI".data, "X".data,
        "19/10/2025| 00:57".data, "SOMETHING".data, "-5.0".data] : List Str),
        t ≠ "+".data ∧ t ≠ "Cr".data ∧ headIs '+' (cleanAmount t) = false)
    ∧ ¬(mkRat 5 1 ≤ 0) := by
  decide

/-- Claim C8 (counterexample): the fragment "USD GSTIN: 33AAACH" begins
with the known foreign-currency prefix "USD " and arrives while in a
row, yet it is dropped by the page-header test (its text contains the
GSTIN marker) instead of being appended to the description parts. -/
theorem claim_C8_counterexample :
    is_foreign_currency ("USD GSTIN: 33AAACH".data) = true
    ∧ is_page_header ("USD GSTIN: 33AAACH".data) = true
    ∧ (step ("N".data) ⟨true, true, false, true, false, false, Transaction.default, []⟩
         ("USD GSTIN: 33AAACH".data)).1.desc_parts = []
    ∧ ([("USD GSTIN: 33AAACH".data : Str)] : List Str) ≠ [] := by
  decide

/-- Claim C1 (counterexample): on a page whose single draw operator
carries the UTF-16BE bytes `FE FF 00 41`, the decoded-under-text-state
stream contains the fragment "A", but the row machine receives no
fragment at all: `extract_page_texts` re-reads the raw bytes as UTF-8 and
drops them, never invoking the font decoder of the active text state. -/
theorem claim_C1_counterexample :
    extract_page_texts [Op.TextDraw [254, 255, 0, 65]] = []
    ∧ decodedFragments ⟨[], []⟩ [Op.TextDraw [254, 255, 0, 65]] = ["A".data]
    ∧ extract_page_texts [Op.TextDraw [254, 255, 0, 65]]
        ≠ decodedFragments ⟨[], []⟩ [Op.TextDraw [254, 255, 0, 65]] := by
  decide

/-- Claim C6: every emission goes through `flush_transaction`, which
emits nothing when the in-progress description is empty; in particular a
date anchor immediately followed by a section terminator emits no
transaction. -/
theorem claim_C6_empty_description_discard :
    (∀ s : ParserState, s.transaction.description = [] → (flush_transaction s).2 = [])
    ∧ (∀ (name : Str) (s : ParserState) (t : Str),
        (step name s t).2 = (flush_transaction s).2 ∨ (step name s t).2 = [])
    ∧ parsePage ("Jane Doe".data)
        ["Domestic Transactions".data, "Jane Doe".data, "PI".data, "Jane Doe".data,
         "19/10/2025| 00:57".data, "GST Summary".data] = [] := by
  refine ⟨fun s h => flush_empty_desc h, ?_, by decide⟩
  intro name s t
  have hflush : (flush_transaction { s with skip_next_non_date := false }).2
      = (flush_transaction s).2 := by
    unfold flush_transaction flushedTx
    dsimp only
    by_cases hc : s.in_row = true ∧ s.transaction.description ≠ []
    · rw [if_pos hc, if_pos hc]
    · rw [if_neg hc, if_neg hc]
  unfold step stepMain
  by_cases h1 : t = "Domestic Transactions".data ∨ t = "International Transactions".data
  · rw [if_pos h1]
    right
    rfl
  · rw [if_neg h1]
    by_cases h2 : s.in_transactions = false
    · rw [if_pos h2]
      right
      rfl
    · rw [if_neg h2]
      by_cases h3 : s.past_header = false
      · rw [if_pos h3]
        right
        rfl
      · rw [if_neg h3]
        by_cases h4 : s.skip_next_non_date = true
        · rw [if_pos h4]
          by_cases h5 : parse_transaction_date t = none
          · rw [if_pos h5]
            right
            rfl
          · rw [if_neg h5]
            by_cases h6 : is_section_terminator t = true
            · rw [if_pos h6]
              left
              exact hflush
            · rw [if_neg h6]
              cases hdd : parse_transaction_date t with
              | none => exact absurd hdd h5
              | some dt =>
                simp only [hdd]
                left
                exact hflush
        · rw [if_neg h4]
          by_cases h6 : is_section_terminator t = true
          · rw [if_pos h6]
            left
            rfl
          · rw [if_neg h6]
            cases hdd : parse_transaction_date t with
            | some dt =>
              simp only [hdd]
              left
              trivial
            | none =>
              simp only [hdd]
              right
              trivial

/-- Witness for claim C6 at the fresh state, whose description is empty. -/
theorem claim_C6_witness : (flush_transaction ParserState.new).2 = [] :=
  claim_C6_empty_description_discard.1 ParserState.new (by decide)

/-- Claim C8 (amended): while in a row, a fragment with a known
foreign-currency prefix that does not also match the page-header test is
appended to the description parts, and the state (in particular the
amount and has-amount flag) is otherwise unchanged, with nothing
emitted. -/
theorem claim_C8_amended :
    ∀ (name : Str) (s : ParserState) (t : Str),
      InRowReady s → is_foreign_currency t = true → is_page_header t = false →
      step name s t = ({ s with desc_parts := s.desc_parts ++ [t] }, []) :=
  fun _ _ _ hR hfc hph => step_foreign hR hfc hph

/-- Witness for claim C8 on the fragment "USD 45.00" in a concrete
in-row state. -/
theorem claim_C8_witness :
    step ("N".data) ⟨true, true, false, true, false, false, Transaction.default, []⟩
        ("USD 45.00".data)
      = (⟨true, true, false, true, false, false, Transaction.default,
          [("USD 45.00".data)]⟩, []) :=
  claim_C8_amended ("N".data)
    ⟨true, true, false, true, false, false, Transaction.default, []⟩
    ("USD 45.00".data) ⟨rfl, rfl, rfl, rfl⟩ (by decide) (by decide)

/-- Claim C9 (amended): an amount fragment whose cleaned text begins
with '+' takes the credit branch of `parse_amount` regardless of the
pending-credit flag — the result does not depend on the flag — and the
returned value is non-negative whenever the numeric text remaining after
stripping the leading '+' signs is not itself '-'-signed. -/
theorem claim_C9_amended :
    ∀ (s : Str) (b : Bool),
      headIs '+' (cleanAmount s) = true →
      parse_amount s b = parse_amount s true
      ∧ (∀ v, parse_amount s b = some v →
          headIs '-' (trimL ((cleanAmount s).dropWhile (fun c => c = '+'))) = false →
          0 ≤ v) := by
  intro s b hp
  constructor
  · simp [parse_amount, hp]
  · intro v hv hm
    unfold parse_amount at hv
    rw [if_pos hp] at hv
    exact parseF32_nonneg hm hv

/-- Witness for claim C9 at the fragment "+5.0". -/
theorem claim_C9_witness :
    parse_amount ("+5.0".data) false = parse_amount ("+5.0".data) true
    ∧ (0 : ℚ) ≤ mkRat 5 1 :=
  ⟨(claim_C9_amended ("+5.0".data) false (by decide)).1,
   (claim_C9_amended ("+5.0".data) false (by decide)).2 (mkRat 5 1) (by decide) (by decide)⟩

lemma runSteps_foreign (name : Str) (mid : List Str) : ∀ s : ParserState,
    InRowReady s →
    (∀ t ∈ mid, is_foreign_currency t = true ∧ is_page_header t = false) →
    runSteps name s mid = ({ s with desc_parts := s.desc_parts ++ mid }, []) := by
  induction mid with
  | nil =>
    intro s _ _
    rw [List.append_nil]
    rfl
  | cons t ts ih =>
    intro s hR hall
    have hf := hall t (List.mem_cons_self t ts)
    have hstep := @step_foreign name s t hR hf.1 hf.2
    have hR' : InRowReady ({ s with desc_parts := s.desc_parts ++ [t] } : ParserState) :=
      ⟨hR.1, hR.2.1, hR.2.2.1, hR.2.2.2⟩
    have hrec := ih _ hR' (fun u hu => hall u (List.mem_cons_of_mem t hu))
    simp only [runSteps, hstep, hrec]
    rw [List.append_assoc]
    rfl

/-- Claim C10: a foreign-currency fragment (when it survives the
page-header test) never touches the primary description, and a row whose
only content fragments are foreign-currency fragments is discarded at
finalization even though its accumulated description parts are
non-empty. -/
theorem claim_C10_foreign_only_row_discarded :
    (∀ (name : Str) (s : ParserState) (t : Str),
      InRowReady s → is_foreign_currency t = true → is_page_header t = false →
      (step name s t).1.transaction.description = s.transaction.description)
    ∧ (∀ (name : Str) (s : ParserState) (d : Str) (mid : List Str),
        RowEntry s → (parse_transaction_date d).isSome = true → mid ≠ [] →
        (∀ t ∈ mid, is_foreign_currency t = true ∧ is_page_header t = false) →
        rowEmissions name s d mid = []
        ∧ (rowState name s d mid).desc_parts = mid
        ∧ (rowState name s d mid).transaction.description = []) := by
  constructor
  · intro name s t hR hfc hph
    rw [step_foreign hR hfc hph]
  · intro name s d mid hRE hsome hne hall
    obtain ⟨dt, hdt⟩ := Option.isSome_iff_exists.mp hsome
    have hstepd := @step_date name s d dt hRE hdt
    have hR1 : InRowReady (step name s d).1 := by
      rw [hstepd]
      refine ⟨?_, ?_, ?_, ?_⟩
      · show (flush_transaction s).1.in_transactions = true
        rw [(flush_fst_fields s).1]
        exact hRE.1
      · show (flush_transaction s).1.past_header = true
        rw [(flush_fst_fields s).2.1]
        exact hRE.2.1
      · show (flush_transaction s).1.skip_next_non_date = false
        rw [(flush_fst_fields s).2.2]
        exact hRE.2.2
      · rfl
    have hrun := runSteps_foreign name mid (step name s d).1 hR1 hall
    have hdesc1 : (step name s d).1.transaction.description = [] := by
      rw [hstepd]
      rfl
    have hdp1 : (step name s d).1.desc_parts = [] := by
      rw [hstepd]
      rfl
    have hstate : (rowState name s d mid) =
        { (step name s d).1 with desc_parts := (step name s d).1.desc_parts ++ mid } := by
      unfold rowState
      rw [hrun]
    refine ⟨?_, ?_, ?_⟩
    · unfold rowEmissions rowState
      rw [hrun]
      dsimp only
      rw [List.nil_append]
      apply flush_empty_desc
      exact hdesc1
    · rw [hstate]
      show (step name s d).1.desc_parts ++ mid = mid
      rw [hdp1, List.nil_append]
    · rw [hstate]
      exact hdesc1

/-- Witness for claim C10: a row holding only the fragment "USD 45.00"
is discarded, with the fragment accumulated in the description parts. -/
theorem claim_C10_witness :
    rowEmissions ("N".data)
        ⟨true, true, false, false, false, false, Transaction.default, []⟩
        ("19/10/2025".data) [("USD 45.00".data)] = []
    ∧ (rowState ("N".data)
        ⟨true, true, false, false, false, false, Transaction.default, []⟩
        ("19/10/2025".data) [("USD 45.00".data)]).desc_parts = [("USD 45.00".data)]
    ∧ (rowState ("N".data)
        ⟨true, true, false, false, false, false, Transaction.default, []⟩
        ("19/10/2025".data) [("USD 45.00".data)]).transaction.description = [] :=
  claim_C10_foreign_only_row_discarded.2 ("N".data)
    ⟨true, true, false, false, false, false, Transaction.default, []⟩
    ("19/10/2025".data) [("USD 45.00".data)]
    ⟨rfl, rfl, rfl⟩ (by decide) (by decide) (by decide)

lemma decode_plain {b : List Nat} {s : Str} (hbom : startsWithBOM b = false)
    (hutf : utf8Decode b = some s) :
    FontInfo.default.decode b [] = Except.ok s := by
  unfold FontInfo.decode FontInfo.default
  simp [hbom, hutf]

lemma extract_eq_decoded_aux (cache : FontCache) :
    ∀ (ops : List Op) (st : TextState),
      (ops_with_text_state cache st ops).all plainDrawP = true →
      extract_page_texts ops
        = (ops_with_text_state cache st ops).filterMap decodeFragOf := by
  intro ops
  induction ops with
  | nil =>
    intro st _
    rfl
  | cons op rest ih =>
    intro st hall
    simp only [ops_with_text_state, List.all_cons, Bool.and_eq_true] at hall
    obtain ⟨hop, hrest⟩ := hall
    have htail := ih (applyOp cache st op) hrest
    unfold extract_page_texts at htail ⊢
    simp only [ops_with_text_state]
    rw [List.filterMap_cons, List.filterMap_cons]
    cases op with
    | TextDraw bytes =>
      unfold plainDrawP at hop
      simp only [Bool.and_eq_true, Bool.not_eq_true', decide_eq_true_eq,
        Option.isSome_iff_exists] at hop
      obtain ⟨⟨hfont, hbom⟩, sdec, hutf⟩ := hop
      have hdec : (applyOp cache st (Op.TextDraw bytes)).font.decode bytes [] = Except.ok sdec := by
        rw [hfont]
        exact decode_plain hbom hutf
      have hfrag : rawFragOf (Op.TextDraw bytes)
          = decodeFragOf (Op.TextDraw bytes, applyOp cache st (Op.TextDraw bytes)) := by
        unfold rawFragOf decodeFragOf
        simp only [hutf, hdec]
      rw [hfrag, htail]
    | BeginText =>
      rw [htail]
      rfl
    | GraphicsState n =>
      rw [htail]
      rfl
    | TextFont n sz =>
      rw [htail]
      rfl
    | Leading l =>
      rw [htail]
      rfl
    | TextNewline =>
      rw [htail]
      rfl
    | MoveTextPosition dx dy =>
      rw [htail]
      rfl
    | SetTextMatrix m =>
      rw [htail]
      rfl
    | otherOp =>
      rw [htail]
      rfl

/-- Claim C1 (amended): the row machine's fragments are the raw
draw-operator bytes read as UTF-8, ignoring the text state; this
coincides with the decoded-under-text-state stream exactly on pages
where every draw occurs under the default passthrough font with valid
UTF-8 bytes carrying no byte-order mark. -/
theorem claim_C1_amended :
    ∀ (cache : FontCache) (ops : List Op),
      (ops_with_text_state cache TextState.default ops).all plainDrawP = true →
      extract_page_texts ops = decodedFragments cache ops := by
  intro cache ops h
  unfold decodedFragments
  exact extract_eq_decoded_aux cache ops TextState.default h

/-- Witness for claim C1 on a one-draw page with plain ASCII bytes. -/
theorem claim_C1_witness :
    extract_page_texts [Op.TextDraw [104, 105]]
      = decodedFragments ⟨[], []⟩ [Op.TextDraw [104, 105]] :=
  claim_C1_amended ⟨[], []⟩ [Op.TextDraw [104, 105]] (by decide)

lemma bfalse_ne_true {b : Bool} (h : b = false) : ¬(b = true) := by
  rw [h]
  exact fun hc => by cases hc

lemma decodeUtf16BE_error_val : ∀ (us : List Nat) (e : PdfError),
    decodeUtf16BE us = Except.error e → e = PdfError.Utf16Decode := by
  intro us
  induction us using decodeUtf16BE.induct with
  | case1 =>
    intro e he
    simp [decodeUtf16BE] at he
  | case2 u hhi lo r' hlo cs hok ih =>
    intro e he
    simp only [decodeUtf16BE, if_pos hhi, if_pos hlo, hok] at he
    exact Except.noConfusion he
  | case3 u hhi lo r' hlo e0 herr ih =>
    intro e he
    simp only [decodeUtf16BE, if_pos hhi, if_pos hlo, herr, Except.error.injEq] at he
    rw [← he]
    exact ih e0 herr
  | case4 u hhi lo r' hnlo =>
    intro e he
    simp only [decodeUtf16BE, if_pos hhi, if_neg hnlo, Except.error.injEq] at he
    exact he.symm
  | case5 u hhi =>
    intro e he
    simp only [decodeUtf16BE, if_pos hhi, Except.error.injEq] at he
    exact he.symm
  | case6 u r hnhi hlo =>
    intro e he
    cases r with
    | nil =>
      simp only [decodeUtf16BE, if_neg hnhi, if_pos hlo, Except.error.injEq] at he
      exact he.symm
    | cons a r2 =>
      simp only [decodeUtf16BE, if_neg hnhi, if_pos hlo, Except.error.injEq] at he
      exact he.symm
  | case7 u r hnhi hnlo cs hok ih =>
    intro e he
    cases r with
    | nil =>
      simp only [decodeUtf16BE, if_neg hnhi, if_neg hnlo, hok] at he
      exact Except.noConfusion he
    | cons a r2 =>
      simp only [decodeUtf16BE, if_neg hnhi, if_neg hnlo, hok] at he
      exact Except.noConfusion he
  | case8 u r hnhi hnlo e0 herr ih =>
    intro e he
    cases r with
    | nil =>
      exact absurd herr (by simp [decodeUtf16BE])
    | cons a r2 =>
      simp only [decodeUtf16BE, if_neg hnhi, if_neg hnlo, herr, Except.error.injEq] at he
      rw [← he]
      exact ih e0 herr

lemma decodeUtf16BE_error_iff : ∀ us : List Nat,
    (∃ e, decodeUtf16BE us = Except.error e) ↔ hasUnpairedSurr us = true := by
  intro us
  induction us using decodeUtf16BE.induct with
  | case1 =>
    constructor
    · intro ⟨e, he⟩
      simp [decodeUtf16BE] at he
    · intro h
      simp [hasUnpairedSurr] at h
  | case2 u hhi lo r' hlo cs hok ih =>
    simp only [decodeUtf16BE, hasUnpairedSurr, if_pos hhi, if_pos hlo, hok]
    constructor
    · intro ⟨e, he⟩
      exact Except.noConfusion he
    · intro h
      obtain ⟨e0, he0⟩ := ih.mpr h
      rw [he0] at hok
      exact Except.noConfusion hok
  | case3 u hhi lo r' hlo e0 herr ih =>
    simp only [decodeUtf16BE, hasUnpairedSurr, if_pos hhi, if_pos hlo, herr]
    constructor
    · intro _
      exact ih.mp ⟨e0, herr⟩
    · intro _
      exact ⟨e0, rfl⟩
  | case4 u hhi lo r' hnlo =>
    simp only [decodeUtf16BE, hasUnpairedSurr, if_pos hhi, if_neg hnlo]
    constructor
    · intro _
      trivial
    · intro _
      exact ⟨PdfError.Utf16Decode, rfl⟩
  | case5 u hhi =>
    simp only [decodeUtf16BE, hasUnpairedSurr, if_pos hhi]
    constructor
    · intro _
      trivial
    · intro _
      exact ⟨PdfError.Utf16Decode, rfl⟩
  | case6 u r hnhi hlo =>
    cases r with
    | nil =>
      simp only [decodeUtf16BE, hasUnpairedSurr, if_neg hnhi, if_pos hlo]
      constructor
      · intro _
        trivial
      · intro _
        exact ⟨PdfError.Utf16Decode, rfl⟩
    | cons a r2 =>
      simp only [decodeUtf16BE, hasUnpairedSurr, if_neg hnhi, if_pos hlo]
      constructor
      · intro _
        trivial
      · intro _
        exact ⟨PdfError.Utf16Decode, rfl⟩
  | case7 u r hnhi hnlo cs hok ih =>
    cases r with
    | nil =>
      simp only [decodeUtf16BE, hasUnpairedSurr, if_neg hnhi, if_neg hnlo, hok]
      constructor
      · intro ⟨e, he⟩
        exact Except.noConfusion he
      · intro h
        obtain ⟨e0, he0⟩ := ih.mpr h
        rw [he0] at hok
        exact Except.noConfusion hok
    | cons a r2 =>
      simp only [decodeUtf16BE, hasUnpairedSurr, if_neg hnhi, if_neg hnlo, hok]
      constructor
      · intro ⟨e, he⟩
        exact Except.noConfusion he
      · intro h
        obtain ⟨e0, he0⟩ := ih.mpr h
        rw [he0] at hok
        exact Except.noConfusion hok
  | case8 u r hnhi hnlo e0 herr ih =>
    cases r with
    | nil =>
      exact absurd herr (by simp [decodeUtf16BE])
    | cons a r2 =>
      simp only [decodeUtf16BE, hasUnpairedSurr, if_neg hnhi, if_neg hnlo, herr]
      constructor
      · intro _
        exact ih.mp ⟨e0, herr⟩
      · intro _
        exact ⟨e0, rfl⟩

/-- Claim C7: the passthrough decoder fails exactly when a byte-order
mark is present and the 16-bit units after it contain an unpaired
surrogate, or no byte-order mark is present and the bytes are not valid
UTF-8; every failure carries the same error value,
`PdfError.Utf16Decode`. -/
theorem claim_C7_passthrough_errors :
    ∀ data : List Nat,
      ((∃ e, FontInfo.default.decode data [] = Except.error e) ↔
        ((startsWithBOM data = true
            ∧ hasUnpairedSurr (utf16Units (data.drop 2)) = true)
          ∨ (startsWithBOM data = false ∧ utf8Decode data = Option.none)))
      ∧ (∀ e, FontInfo.default.decode data [] = Except.error e → e = PdfError.Utf16Decode) := by
  intro data
  unfold FontInfo.decode FontInfo.default
  dsimp only
  rcases Bool.eq_false_or_eq_true (startsWithBOM data) with hb | hb
  · rw [if_pos hb]
    constructor
    · constructor
      · intro ⟨e, he⟩
        cases hu : decodeUtf16BE (utf16Units (data.drop 2)) with
        | ok cs =>
          simp only [hu] at he
          exact Except.noConfusion he
        | error e0 =>
          exact Or.inl ⟨hb, (decodeUtf16BE_error_iff _).mp ⟨e0, hu⟩⟩
      · intro h
        rcases h with ⟨_, hup⟩ | ⟨hf, _⟩
        · obtain ⟨e, he⟩ := (decodeUtf16BE_error_iff _).mpr hup
          refine ⟨e, ?_⟩
          simp only [he]
        · rw [hb] at hf
          cases hf
    · intro e he
      cases hu : decodeUtf16BE (utf16Units (data.drop 2)) with
      | ok cs =>
        simp only [hu] at he
        exact Except.noConfusion he
      | error e0 =>
        simp only [hu] at he
        injection he with he2
        rw [← he2]
        exact decodeUtf16BE_error_val _ e0 hu
  · rw [if_neg (bfalse_ne_true hb)]
    constructor
    · constructor
      · intro ⟨e, he⟩
        cases hu : utf8Decode data with
        | some s =>
          simp only [hu] at he
          exact Except.noConfusion he
        | none =>
          exact Or.inr ⟨hb, rfl⟩
      · intro h
        rcases h with ⟨ht, _⟩ | ⟨_, hnone⟩
        · rw [hb] at ht
          cases ht
        · refine ⟨PdfError.Utf16Decode, ?_⟩
          simp only [hnone]
    · intro e he
      cases hu : utf8Decode data with
      | some s =>
        simp only [hu] at he
        exact Except.noConfusion he
      | none =>
        simp only [hu] at he
        injection he with he2
        exact he2.symm

/-- Witness for claim C7: the byte sequence `FE FF D8 00` (a byte-order
mark followed by an unpaired high surrogate) makes the passthrough
decoder fail. -/
theorem claim_C7_witness :
    ∃ e, FontInfo.default.decode [254, 255, 216, 0] [] = Except.error e :=
  (claim_C7_passthrough_errors [254, 255, 216, 0]).1.mpr (Or.inl ⟨by decide, by decide⟩)

end HdfcCc
